import Mathlib

/-!
# Verification of the floorplan geometry pipeline

Shallow embedding of the geometry pipeline of the floorplan-ai-builder
repository, together with proofs of the spec's claims about it.

Conventions of the embedding:
* TypeScript numbers are modelled as rationals (`ℚ`).  Every numeric
  computation of the relevant code paths is exact rational arithmetic except
  for `Math.sqrt` (see below) and the trigonometric calls of the synthetic
  contour generator, which are modelled over `ℝ` in their own section.
* `Infinity` is modelled as `⊤` in `WithTop ℚ`.
* `Math.sqrt` appears only (a) inside comparisons of nonnegative quantities,
  where `sqrt u < sqrt v ↔ u < v` lets the embedding compare radicands
  exactly, and (b) in the synthetic generator, which is modelled over `ℝ`
  with `Real.sqrt` itself.
* String fields that the algorithms never inspect (`color`,
  `originalMeasurements`, the aggregate metadata fields of the responses)
  are dropped from the structures; every field an algorithm reads is kept.
-/

namespace Floorplan

/-- A 2-D point in image pixel space (`{x, y}` in the source). -/
structure Pt where
  x : ℚ
  y : ℚ
deriving DecidableEq, Repr

/-- An axis-aligned pixel bounding box (`{x, y, width, height}`). -/
structure Box where
  x : ℚ
  y : ℚ
  width : ℚ
  height : ℚ
deriving DecidableEq, Repr

/-- Cardinal edge direction (`EdgeDirection` in the source). -/
inductive EdgeDirection where
  | north
  | south
  | east
  | west
deriving DecidableEq, Repr

/-- The axis argument of `get_overlap_percentage` (`'x' | 'y'`). -/
inductive Axis where
  | x
  | y
deriving DecidableEq, Repr

/-- `UnifiedRoomData` from `matchRoomsToContours.ts`: a semantic room merged
with pixel geometry. -/
structure URoom where
  id : String
  name : String
  width : ℚ
  depth : ℚ
  labelPosition : Option Pt
  bbox : Box
  centroid : Pt
  areaPixels : ℚ
deriving DecidableEq, Repr

/-- `rooms.find(r => r.id === rid)` — the id lookup shared by all three
spatial tools. -/
def findRoom (rooms : List URoom) (rid : String) : Option URoom :=
  rooms.find? (fun r => r.id == rid)

/-- `checkEdgeDistance` from `spatialTools.ts`.  Returns the signed pixel gap
between `room1`'s edge and `room2`'s facing edge; `Infinity` (here `⊤`) when
either id is absent from the list. -/
def check_edge_distance (rooms : List URoom) (room1_id room2_id : String)
    (edge : EdgeDirection) : WithTop ℚ :=
  match findRoom rooms room1_id, findRoom rooms room2_id with
  | some room1, some room2 =>
    let r1 := room1.bbox
    let r2 := room2.bbox
    match edge with
    | .north => ((r1.y - (r2.y + r2.height) : ℚ) : WithTop ℚ)
    | .south => ((r2.y - (r1.y + r1.height) : ℚ) : WithTop ℚ)
    | .east => ((r2.x - (r1.x + r1.width) : ℚ) : WithTop ℚ)
    | .west => ((r1.x - (r2.x + r2.width) : ℚ) : WithTop ℚ)
  | _, _ => ⊤

/-- `getOverlapPercentage` from `spatialTools.ts`: percentage of the smaller
extent shared on the given axis; `0` when either id is absent. -/
def get_overlap_percentage (rooms : List URoom) (room1_id room2_id : String)
    (axis : Axis) : ℚ :=
  match findRoom rooms room1_id, findRoom rooms room2_id with
  | some room1, some room2 =>
    let r1 := room1.bbox
    let r2 := room2.bbox
    match axis with
    | .x =>
      let left := max r1.x r2.x
      let right := min (r1.x + r1.width) (r2.x + r2.width)
      let overlap := max 0 (right - left)
      let minWidth := min r1.width r2.width
      if minWidth > 0 then overlap / minWidth * 100 else 0
    | .y =>
      let top := max r1.y r2.y
      let bottom := min (r1.y + r1.height) (r2.y + r2.height)
      let overlap := max 0 (bottom - top)
      let minHeight := min r1.height r2.height
      if minHeight > 0 then overlap / minHeight * 100 else 0
  | _, _ => 0

/-- JavaScript `Math.round`: round half toward positive infinity. -/
def jsRound (x : ℚ) : ℤ := ⌊x + 1/2⌋

/-- `Math.round(d * 10) / 10` lifted to `WithTop ℚ`. -/
def roundTenth : WithTop ℚ → WithTop ℚ
  | ⊤ => ⊤
  | (q : ℚ) => ((jsRound (q * 10) : ℚ) / 10 : ℚ)

/-- An entry of `listNearbyRooms`' result. -/
structure NearbyEntry where
  id : String
  name : String
  direction : EdgeDirection
  distance : WithTop ℚ
deriving DecidableEq, Repr

/-- `listNearbyRooms` from `spatialTools.ts`: all other rooms whose closest
directional edge distance is below the threshold, sorted ascending by that
distance.  Returns `[]` when the id is absent. -/
def list_nearby_rooms (rooms : List URoom) (room_id : String)
    (max_distance_px : ℚ) : List NearbyEntry :=
  match findRoom rooms room_id with
  | none => []
  | some _ =>
    let nearby := rooms.foldl (fun acc other =>
      if other.id == room_id then acc
      else
        -- distances in the source's order: north, south, east, west;
        -- `reduce` keeps the earliest minimum (strict `<` comparison).
        let dN := check_edge_distance rooms room_id other.id .north
        let dS := check_edge_distance rooms room_id other.id .south
        let dE := check_edge_distance rooms room_id other.id .east
        let dW := check_edge_distance rooms room_id other.id .west
        let closest := [(EdgeDirection.south, dS), (EdgeDirection.east, dE),
            (EdgeDirection.west, dW)].foldl
          (fun m c => if c.2 < m.2 then c else m) (EdgeDirection.north, dN)
        if closest.2 < (max_distance_px : WithTop ℚ) then
          acc ++ [⟨other.id, other.name, closest.1, roundTenth closest.2⟩]
        else acc) []
    nearby.mergeSort (fun a b => a.distance ≤ b.distance)

end Floorplan

namespace Floorplan

/-- **C8**. `edgeDistance` in direction north is `r1.y − (r2.y + r2.height)`,
and the function is direction-antisymmetric:
`edgeDistance(A,B,north) = edgeDistance(B,A,south)` and
`edgeDistance(A,B,east) = edgeDistance(B,A,west)`, for rooms `A`, `B` present
in the list (looked up by id). -/
theorem C8_edge_distance_antisymmetric (rooms : List URoom) (a b : String)
    (A B : URoom) (hA : findRoom rooms a = some A) (hB : findRoom rooms b = some B) :
    check_edge_distance rooms a b .north
        = ((A.bbox.y - (B.bbox.y + B.bbox.height) : ℚ) : WithTop ℚ) ∧
    check_edge_distance rooms a b .north = check_edge_distance rooms b a .south ∧
    check_edge_distance rooms a b .east = check_edge_distance rooms b a .west := by
  refine ⟨?_, ?_, ?_⟩ <;> simp [check_edge_distance, hA, hB]

/-- Concrete instantiation of `C8_edge_distance_antisymmetric`. -/
theorem C8_edge_distance_antisymmetric_witness :
    check_edge_distance
        [⟨"a", "A", 4, 3, none, ⟨0, 0, 100, 80⟩, ⟨50, 40⟩, 8000⟩,
         ⟨"b", "B", 2, 2, none, ⟨0, 90, 100, 60⟩, ⟨50, 120⟩, 6000⟩] "a" "b" .north
      = (((0 : ℚ) - (90 + 60) : ℚ) : WithTop ℚ) := by
  have h := C8_edge_distance_antisymmetric
    [⟨"a", "A", 4, 3, none, ⟨0, 0, 100, 80⟩, ⟨50, 40⟩, 8000⟩,
     ⟨"b", "B", 2, 2, none, ⟨0, 90, 100, 60⟩, ⟨50, 120⟩, 6000⟩] "a" "b"
    ⟨"a", "A", 4, 3, none, ⟨0, 0, 100, 80⟩, ⟨50, 40⟩, 8000⟩
    ⟨"b", "B", 2, 2, none, ⟨0, 90, 100, 60⟩, ⟨50, 120⟩, 6000⟩ (by decide) (by decide)
  exact h.1

/-- **C10**. The spatial tools are total in their room-id arguments: when a
requested id is absent, `check_edge_distance` returns `Infinity` (`⊤`),
`get_overlap_percentage` returns `0`, and `list_nearby_rooms` returns `[]`.
(In the embedding all three are total Lean functions, so none can throw.) -/
theorem C10_spatial_tools_total (rooms : List URoom) (a b : String)
    (e : EdgeDirection) (ax : Axis) (d : ℚ)
    (h : findRoom rooms a = none ∨ findRoom rooms b = none) :
    check_edge_distance rooms a b e = ⊤ ∧
    get_overlap_percentage rooms a b ax = 0 ∧
    (findRoom rooms a = none → list_nearby_rooms rooms a d = []) := by
  refine ⟨?_, ?_, fun ha => ?_⟩
  · rcases h with h | h <;> simp [check_edge_distance, h]
  · rcases h with h | h <;> simp [get_overlap_percentage, h]
  · simp [list_nearby_rooms, ha]

/-- Concrete instantiation of `C10_spatial_tools_total`: the empty room list
misses every id. -/
theorem C10_spatial_tools_total_witness :
    check_edge_distance [] "x" "y" .east = ⊤ ∧
    get_overlap_percentage [] "x" "y" .x = 0 ∧
    (findRoom [] "x" = none → list_nearby_rooms [] "x" 50 = []) :=
  C10_spatial_tools_total [] "x" "y" .east .x 50 (Or.inl rfl)

/-! ## Layout engine (`floorplanLayout.ts`) -/

/-- A world-space position `[x, y, z]` in meters. -/
structure Vec3 where
  x : ℚ
  y : ℚ
  z : ℚ
deriving DecidableEq, Repr

/-- Room dimensions `[width, height, depth]` in meters. -/
structure Dim3 where
  w : ℚ
  h : ℚ
  d : ℚ
deriving DecidableEq, Repr

/-- A placed room (`Room` in the source): center position and dimensions. -/
structure Room where
  id : String
  name : String
  position : Vec3
  dimensions : Dim3
deriving DecidableEq, Repr

/-- `FloorplanData`: the aggregate fields other than `rooms` are passed
through unchanged by every layout function, so only `rooms` is modelled. -/
structure FloorplanData where
  rooms : List Room
deriving DecidableEq, Repr

/-- `const WALL_THICKNESS = 0.1` (meters). -/
def WALL_THICKNESS : ℚ := 1/10

/-- `r1Left` in `calculateMinDistance`: the room's low x edge. -/
def xLow (r : Room) : ℚ := r.position.x - r.dimensions.w / 2

/-- `r1Right`: the room's high x edge. -/
def xHigh (r : Room) : ℚ := r.position.x + r.dimensions.w / 2

/-- `r1Back`: the room's low z edge. -/
def zLow (r : Room) : ℚ := r.position.z - r.dimensions.d / 2

/-- `r1Front`: the room's high z edge. -/
def zHigh (r : Room) : ℚ := r.position.z + r.dimensions.d / 2

/-- `xOverlap = Math.max(0, Math.min(r1Right, r2Right) - Math.max(r1Left, r2Left))`. -/
def xOverlapAmt (r1 r2 : Room) : ℚ :=
  max 0 (min (xHigh r1) (xHigh r2) - max (xLow r1) (xLow r2))

/-- `zOverlap = Math.max(0, Math.min(r1Front, r2Front) - Math.max(r1Back, r2Back))`. -/
def zOverlapAmt (r1 r2 : Room) : ℚ :=
  max 0 (min (zHigh r1) (zHigh r2) - max (zLow r1) (zLow r2))

/-- `xDistance = Math.max(0, Math.max(r1Left, r2Left) - Math.min(r1Right, r2Right))`. -/
def xGapAmt (r1 r2 : Room) : ℚ :=
  max 0 (max (xLow r1) (xLow r2) - min (xHigh r1) (xHigh r2))

/-- `zDistance = Math.max(0, Math.max(r1Back, r2Back) - Math.min(r1Front, r2Front))`. -/
def zGapAmt (r1 r2 : Room) : ℚ :=
  max 0 (max (zLow r1) (zLow r2) - min (zHigh r1) (zHigh r2))

/-- Exact representation of `calculateMinDistance`'s real return value:
`overl depth` denotes `−depth`, `diag xD zD` denotes `√(xD² + zD²)` (the only
place the source takes a square root), and `axial d` denotes `d`. -/
inductive MinDist where
  | overl (depth : ℚ)
  | diag (xD zD : ℚ)
  | axial (d : ℚ)
deriving DecidableEq, Repr

/-- `calculateMinDistance` from `floorplanLayout.ts`:
negative overlap depth when the boxes overlap on both axes, else the 2-D
minimum distance between the boxes. -/
def calculateMinDistance (r1 r2 : Room) : MinDist :=
  if 0 < xOverlapAmt r1 r2 ∧ 0 < zOverlapAmt r1 r2 then
    .overl (min (xOverlapAmt r1 r2) (zOverlapAmt r1 r2))
  else if 0 < xGapAmt r1 r2 ∧ 0 < zGapAmt r1 r2 then
    .diag (xGapAmt r1 r2) (zGapAmt r1 r2)
  else
    .axial (max (xGapAmt r1 r2) (zGapAmt r1 r2))

/-- The source's test `distance < -0.05` evaluated on the exact
representation: `−depth < −1/20 ↔ 1/20 < depth`; a `diag` value
`√(xD² + zD²)` is nonnegative, hence never `< −1/20`. -/
def isOverlapReport : MinDist → Bool
  | .overl depth => decide (1/20 < depth)
  | .diag _ _ => false
  | .axial d => decide (d < -(1/20))

/-- The source's test `distance > WALL_THICKNESS + 0.05 && distance < 0.5`
evaluated on the exact representation; in the `diag` case
`3/20 < √u < 1/2 ↔ (3/20)² < u < (1/2)²` because all quantities are
nonnegative. -/
def isGapReport : MinDist → Bool
  | .overl depth => decide (3/20 < -depth ∧ -depth < 1/2)
  | .diag xD zD => decide ((3/20)^2 < xD^2 + zD^2 ∧ xD^2 + zD^2 < (1/2)^2)
  | .axial d => decide (3/20 < d ∧ d < 1/2)

/-- The `i < j` nested loop over room pairs, in source order. -/
def orderedPairs : List α → List (α × α)
  | [] => []
  | a :: as => as.map (fun b => (a, b)) ++ orderedPairs as

/-- A recorded gap: the pair of ids and the computed distance. -/
structure GapEntry where
  room1 : String
  room2 : String
  distance : MinDist
deriving DecidableEq, Repr

/-- The result record of `validateLayout`. -/
structure ValidationResult where
  isValid : Bool
  overlaps : List (String × String)
  gaps : List GapEntry
deriving DecidableEq, Repr

/-- `validateLayout` from `floorplanLayout.ts`.  The source's single pass
with `if (distance < -0.05) ... else if (gap test) ...` is split into two
`filterMap`s; the `else` is kept as the explicit conjunct
`¬ isOverlapReport`. -/
def validateLayout (fd : FloorplanData) : ValidationResult :=
  let overlaps := (orderedPairs fd.rooms).filterMap (fun p =>
    if isOverlapReport (calculateMinDistance p.1 p.2) then some (p.1.id, p.2.id)
    else none)
  let gaps := (orderedPairs fd.rooms).filterMap (fun p =>
    let m := calculateMinDistance p.1 p.2
    if ¬ isOverlapReport m ∧ isGapReport m then some ⟨p.1.id, p.2.id, m⟩
    else none)
  ⟨overlaps.length == 0, overlaps, gaps⟩

/-! Spec-side predicates for claim C5, written from the claim's words. -/

/-- Claim C5's overlap criterion: the axis-aligned boxes overlap on both
horizontal axes and the penetration depth exceeds the 0.05 m tolerance. -/
def specOverlapPair (r1 r2 : Room) : Prop :=
  0 < xOverlapAmt r1 r2 ∧ 0 < zOverlapAmt r1 r2 ∧
    1/20 < min (xOverlapAmt r1 r2) (zOverlapAmt r1 r2)

instance (r1 r2 : Room) : Decidable (specOverlapPair r1 r2) := by
  unfold specOverlapPair; infer_instance

/-- Claim C5's gap criterion: the boxes do not overlap on both axes, and the
minimum box distance lies strictly between `wallThickness + 0.05 = 0.15` and
`0.5` — Euclidean `√(gapX² + gapZ²)` when separated on both axes (phrased on
the squares), else the single-axis gap. -/
def specGapPair (r1 r2 : Room) : Prop :=
  ¬ (0 < xOverlapAmt r1 r2 ∧ 0 < zOverlapAmt r1 r2) ∧
  (if 0 < xGapAmt r1 r2 ∧ 0 < zGapAmt r1 r2 then
    (3/20)^2 < xGapAmt r1 r2 ^ 2 + zGapAmt r1 r2 ^ 2 ∧
      xGapAmt r1 r2 ^ 2 + zGapAmt r1 r2 ^ 2 < (1/2)^2
  else
    3/20 < max (xGapAmt r1 r2) (zGapAmt r1 r2) ∧
      max (xGapAmt r1 r2) (zGapAmt r1 r2) < 1/2)

instance (r1 r2 : Room) : Decidable (specGapPair r1 r2) := by
  unfold specGapPair; infer_instance

/-- `xGapAmt` is nonnegative (it is a `max` with `0`). -/
theorem xGapAmt_nonneg (r1 r2 : Room) : 0 ≤ xGapAmt r1 r2 := le_max_left 0 _

/-- `zGapAmt` is nonnegative. -/
theorem zGapAmt_nonneg (r1 r2 : Room) : 0 ≤ zGapAmt r1 r2 := le_max_left 0 _

/-- Pointwise: the overlap test of `validateLayout` holds exactly on claim
C5's overlap criterion. -/
theorem isOverlapReport_iff (r1 r2 : Room) :
    isOverlapReport (calculateMinDistance r1 r2) = true ↔ specOverlapPair r1 r2 := by
  unfold calculateMinDistance specOverlapPair
  by_cases h : 0 < xOverlapAmt r1 r2 ∧ 0 < zOverlapAmt r1 r2
  · rw [if_pos h]
    simp only [isOverlapReport, decide_eq_true_eq]
    exact ⟨fun hm => ⟨h.1, h.2, hm⟩, fun hs => hs.2.2⟩
  · rw [if_neg h]
    by_cases hd : 0 < xGapAmt r1 r2 ∧ 0 < zGapAmt r1 r2
    · rw [if_pos hd]
      simp only [isOverlapReport, Bool.false_eq_true, false_iff]
      exact fun hs => h ⟨hs.1, hs.2.1⟩
    · rw [if_neg hd]
      simp only [isOverlapReport, decide_eq_true_eq]
      constructor
      · intro hm
        exfalso
        have h0 : (0:ℚ) ≤ max (xGapAmt r1 r2) (zGapAmt r1 r2) :=
          le_trans (xGapAmt_nonneg r1 r2) (le_max_left _ _)
        linarith
      · exact fun hs => absurd ⟨hs.1, hs.2.1⟩ h

/-- Pointwise: the else-branch gap test of `validateLayout` holds exactly on
claim C5's gap criterion. -/
theorem gapReport_iff (r1 r2 : Room) :
    ((¬ isOverlapReport (calculateMinDistance r1 r2) = true ∧
        isGapReport (calculateMinDistance r1 r2) = true) ↔ specGapPair r1 r2) := by
  unfold calculateMinDistance specGapPair
  by_cases h : 0 < xOverlapAmt r1 r2 ∧ 0 < zOverlapAmt r1 r2
  · rw [if_pos h]
    have hpos : 0 < min (xOverlapAmt r1 r2) (zOverlapAmt r1 r2) := lt_min h.1 h.2
    simp only [isGapReport, decide_eq_true_eq]
    constructor
    · rintro ⟨-, hg, -⟩
      exact absurd hg (by linarith)
    · rintro ⟨hno, -⟩
      exact absurd h hno
  · rw [if_neg h]
    by_cases hd : 0 < xGapAmt r1 r2 ∧ 0 < zGapAmt r1 r2
    · rw [if_pos hd, if_pos hd]
      simp only [isOverlapReport, isGapReport, Bool.false_eq_true, decide_eq_true_eq,
        not_false_iff, true_and]
      exact ⟨fun hg => ⟨h, hg⟩, fun hg => hg.2⟩
    · rw [if_neg hd, if_neg hd]
      have hax : ¬ (max (xGapAmt r1 r2) (zGapAmt r1 r2) < -(1/20)) := by
        have h0 : (0:ℚ) ≤ max (xGapAmt r1 r2) (zGapAmt r1 r2) :=
          le_trans (xGapAmt_nonneg r1 r2) (le_max_left _ _)
        intro hc; linarith
      simp only [isOverlapReport, isGapReport, decide_eq_true_eq]
      constructor
      · rintro ⟨-, hg⟩
        exact ⟨h, hg⟩
      · rintro ⟨-, hg⟩
        exact ⟨fun hc => hax hc, hg⟩

/-- **C5**. `validateLayout` is valid exactly when it records zero overlaps;
a pair is recorded as an overlap exactly when the boxes overlap on both
horizontal axes with penetration depth exceeding the 0.05 m tolerance, and
as a gap exactly when the minimum box distance lies strictly between
`wallThickness + 0.05 = 0.15 m` and `0.5 m`. -/
theorem C5_validateLayout_characterization (fd : FloorplanData) :
    ((validateLayout fd).isValid = true ↔ (validateLayout fd).overlaps = []) ∧
    (validateLayout fd).overlaps = (orderedPairs fd.rooms).filterMap (fun p =>
      if specOverlapPair p.1 p.2 then some (p.1.id, p.2.id) else none) ∧
    (validateLayout fd).gaps.map (fun g => (g.room1, g.room2)) =
      (orderedPairs fd.rooms).filterMap (fun p =>
        if specGapPair p.1 p.2 then some (p.1.id, p.2.id) else none) := by
  refine ⟨?_, ?_, ?_⟩
  · simp [validateLayout, List.length_eq_zero]
  · unfold validateLayout
    simp only
    refine List.filterMap_congr (fun p _ => ?_)
    by_cases h : specOverlapPair p.1 p.2
    · rw [if_pos ((isOverlapReport_iff p.1 p.2).mpr h), if_pos h]
    · rw [if_neg (fun hc => h ((isOverlapReport_iff p.1 p.2).mp hc)), if_neg h]
  · unfold validateLayout
    simp only [List.map_filterMap]
    refine List.filterMap_congr (fun p _ => ?_)
    by_cases h : specGapPair p.1 p.2
    · rw [if_pos ((gapReport_iff p.1 p.2).mpr h), if_pos h]
      rfl
    · rw [if_neg (fun hc => h ((gapReport_iff p.1 p.2).mp hc)), if_neg h]
      rfl

/-! ## Categorical grid layout (`arrangeInGrid`, second revision) -/

/-- `ParsedRoomData`: the semantic room record (`color` and
`originalMeasurements` are passed through untouched and omitted here).  The
layout strategies read only `id`, `name`, `width`, `depth`; the matcher and
synthetic generator also read `labelPosition`. -/
structure ParsedRoom where
  id : String
  name : String
  width : ℚ
  depth : ℚ
  labelPosition : Option Pt
deriving DecidableEq, Repr

/-- `AdjacencyRelation`: `edge` is the direction from `room1` to `room2`. -/
structure AdjacencyRelation where
  room1 : String
  room2 : String
  edge : EdgeDirection
deriving DecidableEq, Repr

/-- `AIFloorplanResponse` restricted to the fields the BFS and grid
strategies read.  The source computes `optimalWidth = Math.sqrt(totalAreaSqM
* 1.5)`, an irrational number used only in threshold comparisons; the
embedding passes that value itself as a parameter `ow`, and every theorem
quantifies over it. -/
structure AIResponse where
  rooms : List ParsedRoom
  adjacency : List AdjacencyRelation
  ceilingHeight : ℚ
  entryRoomId : Option String
deriving DecidableEq, Repr

/-- `pat` is a leading run of `l`, character by character. -/
def charsStartWith : List Char → List Char → Bool
  | [], _ => true
  | _ :: _, [] => false
  | p :: ps, c :: cs => p == c && charsStartWith ps cs

/-- `pat` occurs contiguously in `l` — JavaScript `String.includes`. -/
def charsOccur (pat : List Char) : List Char → Bool
  | [] => pat.isEmpty
  | c :: cs => charsStartWith pat (c :: cs) || charsOccur pat cs

/-- `s.toLowerCase().includes(pat)`. -/
def lowerIncludes (s pat : String) : Bool := charsOccur pat.data s.toLower.data

/-- Reception keyword test of `arrangeInGrid`. -/
def isReception (r : ParsedRoom) : Bool :=
  lowerIncludes r.name "reception" || lowerIncludes r.name "living" ||
    lowerIncludes r.name "lounge"

/-- Bedroom keyword test. -/
def isBedroom (r : ParsedRoom) : Bool := lowerIncludes r.name "bedroom"

/-- Bathroom keyword test. -/
def isBathroom (r : ParsedRoom) : Bool :=
  lowerIncludes r.name "bathroom" || lowerIncludes r.name "wc"

/-- Kitchen keyword test. -/
def isKitchenName (r : ParsedRoom) : Bool := lowerIncludes r.name "kitchen"

/-- Hallway test: name contains `hall` and the id differs from the entry id. -/
def isHallway (entryRoomId : Option String) (r : ParsedRoom) : Bool :=
  lowerIncludes r.name "hall" &&
    (match entryRoomId with
     | some eid => r.id != eid
     | none => true)

/-- The mutable cursor state of `arrangeInGrid`'s `placeRoom` helper. -/
structure GridState where
  currentX : ℚ
  currentZ : ℚ
  maxRowHeight : ℚ
  currentRowWidth : ℚ
  finalRooms : List Room
  placedIds : List String
deriving DecidableEq, Repr

/-- The row-advance assignments of `placeRoom`
(`currentX = 0; currentZ += maxRowHeight + WALL_THICKNESS; …`). -/
def gridNewRow (s : GridState) : GridState :=
  { s with currentX := 0,
           currentZ := s.currentZ + s.maxRowHeight + WALL_THICKNESS,
           maxRowHeight := 0,
           currentRowWidth := 0 }

/-- The unconditional tail of `placeRoom`: append the room at
`[currentX + w/2, 0, currentZ + d/2]` and advance the cursor. -/
def gridAppend (ch : ℚ) (s : GridState) (room : ParsedRoom) : GridState :=
  { currentX := s.currentX + room.width + WALL_THICKNESS,
    currentZ := s.currentZ,
    maxRowHeight := max s.maxRowHeight room.depth,
    currentRowWidth := s.currentRowWidth + room.width + WALL_THICKNESS,
    finalRooms := s.finalRooms ++
      [⟨room.id, room.name,
        ⟨s.currentX + room.width / 2, 0, s.currentZ + room.depth / 2⟩,
        ⟨room.width, ch, room.depth⟩⟩],
    placedIds := s.placedIds ++ [room.id] }

/-- `placeRoom` of `arrangeInGrid` (second revision): skip already placed
ids, start a new row when forced or when the row width would exceed the
optimal width, then place. -/
def placeRoom (ow ch : ℚ) (s : GridState) (room : ParsedRoom)
    (forceNewRow : Bool) : GridState :=
  if s.placedIds.contains room.id then s
  else
    gridAppend ch
      (if forceNewRow ∨ (ow < s.currentRowWidth + room.width ∧ 0 < s.finalRooms.length)
       then gridNewRow s else s) room

/-- Place an optional room (the entry-room and kitchen phases of
`arrangeInGrid` guard their `placeRoom` call on the room's existence). -/
def placeOpt (ow ch : ℚ) (s : GridState) (o : Option ParsedRoom)
    (flag : GridState → ParsedRoom → Bool) : GridState :=
  match o with
  | some r => placeRoom ow ch s r (flag s r)
  | none => s

/-- The entry room of `arrangeInGrid`:
`rooms.find(r => r.id === entryRoomId)`. -/
def entryRoomOf (ai : AIResponse) : Option ParsedRoom :=
  match ai.entryRoomId with
  | some eid => ai.rooms.find? (fun r => r.id == eid)
  | none => none

/-- The `categorized` id set of `arrangeInGrid`. -/
def categorizedIds (ai : AIResponse) : List String :=
  (match ai.entryRoomId with | some eid => [eid] | none => []) ++
  ((ai.rooms.filter isReception).map (fun r => r.id)) ++
  ((ai.rooms.filter isBedroom).map (fun r => r.id)) ++
  ((ai.rooms.filter isBathroom).map (fun r => r.id)) ++
  (match ai.rooms.find? isKitchenName with | some k => [k.id] | none => []) ++
  ((ai.rooms.filter (isHallway ai.entryRoomId)).map (fun r => r.id))

/-- `arrangeInGrid` (second revision, the UK-convention categorical layout):
categorise rooms by name keyword and place them phase by phase with
`placeRoom`.  Console statistics (area ratio, bounds) are omitted: they do
not affect the returned data. -/
def arrangeInGrid (ow : ℚ) (ai : AIResponse) : FloorplanData :=
  let rooms := ai.rooms
  let ch := ai.ceilingHeight
  let receptionRooms := rooms.filter isReception
  let bedrooms := rooms.filter isBedroom
  let bathrooms := rooms.filter isBathroom
  let hallways := rooms.filter (isHallway ai.entryRoomId)
  let otherRooms := rooms.filter (fun r => ¬ (categorizedIds ai).contains r.id)
  let s0 : GridState := ⟨0, 0, 0, 0, [], []⟩
  -- entry room first
  let s1 := placeOpt ow ch s0 (entryRoomOf ai) (fun _ _ => false)
  -- reception rooms: force a new row when the previous reception was wide
  let s2 := receptionRooms.enum.foldl (fun s ir =>
    placeRoom ow ch s ir.2
      (decide (0 < ir.1) &&
        (match receptionRooms.get? (ir.1 - 1) with
         | some prev => decide (ow * (6/10) < prev.width)
         | none => false))) s1
  -- kitchen: new row when the current row is already 70% full
  let s3 := placeOpt ow ch s2 (rooms.find? isKitchenName)
    (fun s _ => decide (ow * (7/10) < s.currentRowWidth))
  -- hallways: the first one starts a new row when the row is 50% full
  let s4 := hallways.enum.foldl (fun s ih =>
    placeRoom ow ch s ih.2
      (decide (ih.1 = 0) && decide (ow * (5/10) < s.currentRowWidth))) s3
  -- bedrooms: the first one always starts a new row
  let s5 := bedrooms.enum.foldl (fun s ib =>
    placeRoom ow ch s ib.2 (decide (ib.1 = 0))) s4
  -- bathrooms: new row when the row is 90% full
  let s6 := bathrooms.foldl (fun s b =>
    placeRoom ow ch s b (decide (ow * (9/10) < s.currentRowWidth))) s5
  -- any remaining rooms
  let s7 := otherRooms.foldl (fun s r => placeRoom ow ch s r false) s6
  ⟨s7.finalRooms⟩

/-! Invariant machinery for claim C2. -/

/-- Both-axis separation: the two plan boxes share no area. -/
def roomSep (r1 r2 : Room) : Prop :=
  xOverlapAmt r1 r2 = 0 ∨ zOverlapAmt r1 r2 = 0

/-- A placed room lying in the cursor's current row: it starts exactly at
`currentZ`, fits under `maxRowHeight`, and ends at least one wall thickness
left of `currentX`. -/
def inCurrentRow (s : GridState) (r : Room) : Prop :=
  zLow r = s.currentZ ∧ zHigh r ≤ s.currentZ + s.maxRowHeight ∧
    xHigh r ≤ s.currentX - WALL_THICKNESS

/-- A placed room lying in a finished row: it ends at least one wall
thickness before `currentZ`. -/
def inEarlierRow (s : GridState) (r : Room) : Prop :=
  zHigh r ≤ s.currentZ - WALL_THICKNESS

/-- The placement invariant of the grid strategy. -/
def GridInv (s : GridState) : Prop :=
  0 ≤ s.maxRowHeight ∧
  (∀ r ∈ s.finalRooms, inCurrentRow s r ∨ inEarlierRow s r) ∧
  s.finalRooms.Pairwise roomSep

theorem gridNewRow_inv {s : GridState} (h : GridInv s) : GridInv (gridNewRow s) := by
  obtain ⟨hm, hcls, hpw⟩ := h
  refine ⟨le_refl 0, fun r hr => Or.inr ?_, hpw⟩
  rcases hcls r hr with hrow | hold
  · show zHigh r ≤ (s.currentZ + s.maxRowHeight + WALL_THICKNESS) - WALL_THICKNESS
    linarith [hrow.2.1]
  · show zHigh r ≤ (s.currentZ + s.maxRowHeight + WALL_THICKNESS) - WALL_THICKNESS
    unfold inEarlierRow at hold
    unfold WALL_THICKNESS at *
    linarith

theorem gridAppend_inv {s : GridState} (ch : ℚ) (room : ParsedRoom)
    (h : GridInv s) (hw : 0 ≤ room.width) : GridInv (gridAppend ch s room) := by
  obtain ⟨hm, hcls, hpw⟩ := h
  set n : Room :=
    ⟨room.id, room.name,
      ⟨s.currentX + room.width / 2, 0, s.currentZ + room.depth / 2⟩,
      ⟨room.width, ch, room.depth⟩⟩ with hn
  have hnzLow : zLow n = s.currentZ := by unfold zLow; rw [hn]; ring
  have hnzHigh : zHigh n = s.currentZ + room.depth := by unfold zHigh; rw [hn]; ring
  have hnxLow : xLow n = s.currentX := by unfold xLow; rw [hn]; ring
  have hnxHigh : xHigh n = s.currentX + room.width := by unfold xHigh; rw [hn]; ring
  have hsep : ∀ r ∈ s.finalRooms, roomSep r n := by
    intro r hr
    rcases hcls r hr with hrow | hold
    · left
      unfold xOverlapAmt
      rw [hnxLow, hnxHigh]
      apply max_eq_left
      have h1 : min (xHigh r) (s.currentX + room.width) ≤ xHigh r := min_le_left _ _
      have h2 : s.currentX ≤ max (xLow r) s.currentX := le_max_right _ _
      have h3 : xHigh r ≤ s.currentX - WALL_THICKNESS := hrow.2.2
      unfold WALL_THICKNESS at h3
      linarith
    · right
      unfold zOverlapAmt
      rw [hnzLow, hnzHigh]
      apply max_eq_left
      have h1 : min (zHigh r) (s.currentZ + room.depth) ≤ zHigh r := min_le_left _ _
      have h2 : s.currentZ ≤ max (zLow r) s.currentZ := le_max_right _ _
      unfold inEarlierRow WALL_THICKNESS at hold
      linarith
  refine ⟨le_trans hm (le_max_left _ _), ?_, ?_⟩
  · intro r hr
    rcases List.mem_append.mp hr with hr | hr
    · rcases hcls r hr with hrow | hold
      · left
        refine ⟨hrow.1, ?_, ?_⟩
        · refine le_trans hrow.2.1 ?_
          show s.currentZ + s.maxRowHeight ≤ s.currentZ + max s.maxRowHeight room.depth
          exact add_le_add_left (le_max_left _ _) _
        · refine le_trans hrow.2.2 ?_
          show s.currentX - WALL_THICKNESS ≤
            (s.currentX + room.width + WALL_THICKNESS) - WALL_THICKNESS
          unfold WALL_THICKNESS
          linarith
      · right
        exact hold
    · rw [List.mem_singleton] at hr
      subst hr
      left
      refine ⟨hnzLow, ?_, ?_⟩
      · rw [hnzHigh]
        show s.currentZ + room.depth ≤ s.currentZ + max s.maxRowHeight room.depth
        exact add_le_add_left (le_max_right _ _) _
      · rw [hnxHigh]
        show s.currentX + room.width ≤
          (s.currentX + room.width + WALL_THICKNESS) - WALL_THICKNESS
        have : (s.currentX + room.width + WALL_THICKNESS) - WALL_THICKNESS
            = s.currentX + room.width := by ring
        rw [this]
  · show List.Pairwise roomSep (s.finalRooms ++ [n])
    rw [List.pairwise_append]
    refine ⟨hpw, List.pairwise_singleton _ _, ?_⟩
    intro r hr m hm'
    rw [List.mem_singleton] at hm'
    subst hm'
    exact hsep r hr

theorem placeRoom_inv {s : GridState} (ow ch : ℚ) (room : ParsedRoom) (f : Bool)
    (h : GridInv s) (hw : 0 ≤ room.width) : GridInv (placeRoom ow ch s room f) := by
  unfold placeRoom
  by_cases hc : s.placedIds.contains room.id
  · rwa [if_pos hc]
  · rw [if_neg hc]
    by_cases hnr : (f = true) ∨ (ow < s.currentRowWidth + room.width ∧ 0 < s.finalRooms.length)
    · rw [if_pos hnr]
      exact gridAppend_inv ch room (gridNewRow_inv h) hw
    · rw [if_neg hnr]
      exact gridAppend_inv ch room h hw

/-- Generic fold preservation: any phase of `arrangeInGrid` — a left fold of
`placeRoom` over a list, with an arbitrary state-dependent force flag —
preserves the invariant. -/
theorem foldl_placeRoom_inv {β : Type} (ow ch : ℚ) (pick : β → ParsedRoom)
    (flag : GridState → β → Bool) :
    ∀ (l : List β) (s : GridState), GridInv s → (∀ b ∈ l, 0 ≤ (pick b).width) →
      GridInv (l.foldl (fun s b => placeRoom ow ch s (pick b) (flag s b)) s) := by
  intro l
  induction l with
  | nil => exact fun s hs _ => hs
  | cons b bs ih =>
    intro s hs hw
    exact ih _ (placeRoom_inv ow ch (pick b) _ hs (hw b (List.mem_cons_self b bs)))
      (fun x hx => hw x (List.mem_cons_of_mem b hx))

/-- Both-axis separation rules out an overlap report. -/
theorem roomSep_not_overlap (r1 r2 : Room) (h : roomSep r1 r2) :
    isOverlapReport (calculateMinDistance r1 r2) = false := by
  rw [Bool.eq_false_iff]
  intro hc
  have hs := (isOverlapReport_iff r1 r2).mp hc
  rcases h with h | h
  · exact absurd hs.1 (by rw [h]; exact lt_irrefl 0)
  · exact absurd hs.2.1 (by rw [h]; exact lt_irrefl 0)

/-- Membership in `orderedPairs` of a pairwise list gives the relation. -/
theorem orderedPairs_of_pairwise {α : Type} {R : α → α → Prop} :
    ∀ {l : List α}, l.Pairwise R → ∀ p ∈ orderedPairs l, R p.1 p.2 := by
  intro l
  induction l with
  | nil => intro _ p hp; simp [orderedPairs] at hp
  | cons a as ih =>
    intro h p hp
    rw [List.pairwise_cons] at h
    simp only [orderedPairs, List.mem_append, List.mem_map] at hp
    rcases hp with ⟨b, hb, rfl⟩ | hp
    · exact h.1 b hb
    · exact ih h.2 p hp

/-- A layout whose rooms are pairwise box-separated validates with no
overlaps. -/
theorem pairwise_validateLayout (fd : FloorplanData)
    (h : fd.rooms.Pairwise roomSep) : (validateLayout fd).isValid = true := by
  have he : (orderedPairs fd.rooms).filterMap (fun p =>
      if isOverlapReport (calculateMinDistance p.1 p.2) then some (p.1.id, p.2.id)
      else none) = [] := by
    refine List.filterMap_eq_nil_iff.mpr (fun p hp => ?_)
    rw [roomSep_not_overlap p.1 p.2 (orderedPairs_of_pairwise h p hp)]
    rfl
  unfold validateLayout
  simp only [he]
  rfl

/-- The second component of an `enum` entry is a member of the list. -/
theorem mem_enum_snd {α : Type} {l : List α} {p : ℕ × α} (h : p ∈ l.enum) :
    p.2 ∈ l := List.get?_mem (List.mem_enum_iff_get?.mp h)

/-- `placeOpt` preserves the invariant when any produced room has
nonnegative width. -/
theorem placeOpt_inv {s : GridState} (ow ch : ℚ) (o : Option ParsedRoom)
    (flag : GridState → ParsedRoom → Bool) (h : GridInv s)
    (hw : ∀ r, o = some r → 0 ≤ r.width) : GridInv (placeOpt ow ch s o flag) := by
  cases o with
  | none => exact h
  | some r => exact placeRoom_inv ow ch r _ h (hw r rfl)

/-- The entry room, when found, is one of the input rooms. -/
theorem entryRoomOf_mem {ai : AIResponse} {r : ParsedRoom}
    (h : entryRoomOf ai = some r) : r ∈ ai.rooms := by
  unfold entryRoomOf at h
  cases hid : ai.entryRoomId with
  | none => rw [hid] at h; exact absurd h (by simp)
  | some eid =>
    rw [hid] at h
    exact List.mem_of_find?_eq_some h

/-- **C2**. For every non-empty input room list with positive widths and
depths, the categorical grid strategy produces a layout for which
`validateLayout` reports zero overlaps, whatever the (irrational) optimal
row width `ow` evaluates to. -/
theorem C2_grid_layout_collision_free (ow : ℚ) (ai : AIResponse)
    (_hne : ai.rooms ≠ []) (hpos : ∀ r ∈ ai.rooms, 0 < r.width ∧ 0 < r.depth) :
    (validateLayout (arrangeInGrid ow ai)).isValid = true := by
  apply pairwise_validateLayout
  have hW : ∀ r ∈ ai.rooms, 0 ≤ r.width := fun r hr => le_of_lt (hpos r hr).1
  have h0 : GridInv (⟨0, 0, 0, 0, [], []⟩ : GridState) :=
    ⟨le_refl 0, fun r hr => absurd hr (List.not_mem_nil r), List.Pairwise.nil⟩
  unfold arrangeInGrid
  simp only
  -- entry phase
  have h1 := placeOpt_inv ow ai.ceilingHeight (entryRoomOf ai) (fun _ _ => false) h0
    (fun r hr => hW r (entryRoomOf_mem hr))
  -- reception phase
  have h2 := foldl_placeRoom_inv ow ai.ceilingHeight (Prod.snd (β := ParsedRoom))
    (fun _ ir => decide (0 < ir.1) &&
      (match (ai.rooms.filter isReception).get? (ir.1 - 1) with
       | some prev => decide (ow * (6/10) < prev.width)
       | none => false))
    (ai.rooms.filter isReception).enum _ h1
    (fun b hb => hW b.2 (List.mem_of_mem_filter (mem_enum_snd hb)))
  -- kitchen phase
  have h3 := placeOpt_inv ow ai.ceilingHeight (ai.rooms.find? isKitchenName)
    (fun s _ => decide (ow * (7/10) < s.currentRowWidth)) h2
    (fun r hr => hW r (List.mem_of_find?_eq_some hr))
  -- hallway phase
  have h4 := foldl_placeRoom_inv ow ai.ceilingHeight (Prod.snd (β := ParsedRoom))
    (fun s ih => decide (ih.1 = 0) && decide (ow * (5/10) < s.currentRowWidth))
    (ai.rooms.filter (isHallway ai.entryRoomId)).enum _ h3
    (fun b hb => hW b.2 (List.mem_of_mem_filter (mem_enum_snd hb)))
  -- bedroom phase
  have h5 := foldl_placeRoom_inv ow ai.ceilingHeight (Prod.snd (β := ParsedRoom))
    (fun _ ib => decide (ib.1 = 0))
    (ai.rooms.filter isBedroom).enum _ h4
    (fun b hb => hW b.2 (List.mem_of_mem_filter (mem_enum_snd hb)))
  -- bathroom phase
  have h6 := foldl_placeRoom_inv ow ai.ceilingHeight (fun b => b)
    (fun s _ => decide (ow * (9/10) < s.currentRowWidth))
    (ai.rooms.filter isBathroom) _ h5
    (fun b hb => hW b (List.mem_of_mem_filter hb))
  -- remaining rooms
  have h7 := foldl_placeRoom_inv ow ai.ceilingHeight (fun b => b)
    (fun _ _ => false)
    (ai.rooms.filter (fun r => ¬ (categorizedIds ai).contains r.id))
    _ h6
    (fun b hb => hW b (List.mem_of_mem_filter hb))
  exact h7.2.2

/-- Concrete instantiation of `C2_grid_layout_collision_free`. -/
theorem C2_grid_layout_collision_free_witness :
    (validateLayout (arrangeInGrid 5
      ⟨[⟨"a", "Lounge", 3, 4, none⟩, ⟨"b", "Kitchen", 2, 3, none⟩], [], 12/5, none⟩)).isValid
      = true :=
  C2_grid_layout_collision_free 5
    ⟨[⟨"a", "Lounge", 3, 4, none⟩, ⟨"b", "Kitchen", 2, 3, none⟩], [], 12/5, none⟩
    (by decide) (by decide)

/-! ## Adjacency BFS layout (`arrangeWithBFS`) -/

/-- `getOppositeEdge`. -/
def getOppositeEdge : EdgeDirection → EdgeDirection
  | .north => .south
  | .south => .north
  | .east => .west
  | .west => .east

/-- `calculateAdjacentPosition`: offset from the base room's center along
the edge direction by `baseExtent/2 + newExtent/2 + WALL_THICKNESS`, keeping
the perpendicular coordinate; `y` is always `0`. -/
def calculateAdjacentPosition (baseRoom : Room) (newDimensions : Dim3)
    (edge : EdgeDirection) : Vec3 :=
  match edge with
  | .north => ⟨baseRoom.position.x, 0,
      baseRoom.position.z + baseRoom.dimensions.d / 2 + newDimensions.d / 2 + WALL_THICKNESS⟩
  | .south => ⟨baseRoom.position.x, 0,
      baseRoom.position.z - baseRoom.dimensions.d / 2 - newDimensions.d / 2 - WALL_THICKNESS⟩
  | .east => ⟨baseRoom.position.x + baseRoom.dimensions.w / 2 + newDimensions.w / 2 + WALL_THICKNESS,
      0, baseRoom.position.z⟩
  | .west => ⟨baseRoom.position.x - baseRoom.dimensions.w / 2 - newDimensions.w / 2 - WALL_THICKNESS,
      0, baseRoom.position.z⟩

/-- The adjacency map's neighbor list for id `x`: for each relation in input
order, the forward edge when `room1` matches, then the reverse edge with the
opposite direction when `room2` matches — the append order of the source's
map construction. -/
def neighborsOf (adjacency : List AdjacencyRelation) (x : String) :
    List (String × EdgeDirection) :=
  adjacency.foldl (fun acc a =>
    (acc ++ (if a.room1 == x then [(a.room2, a.edge)] else [])) ++
      (if a.room2 == x then [(a.room1, getOppositeEdge a.edge)] else [])) []

/-- `positioned.has(rid)` on the insertion-ordered association list. -/
def posHas (pos : List (String × Room)) (rid : String) : Bool :=
  pos.any (fun p => p.1 == rid)

/-- `positioned.get(rid)`. -/
def posGet (pos : List (String × Room)) (rid : String) : Option Room :=
  (pos.find? (fun p => p.1 == rid)).map Prod.snd

/-- Build the placed `Room` record for a parsed room. -/
def mkPlaced (r : ParsedRoom) (p : Vec3) (ch : ℚ) : Room :=
  ⟨r.id, r.name, p, ⟨r.width, ch, r.depth⟩⟩

/-- One BFS visit: position every not-yet-positioned neighbor of the current
room via `calculateAdjacentPosition` and collect the newly queued ids. -/
def bfsExpand (rooms : List ParsedRoom) (ch : ℚ) (curRoom : Room)
    (neighbors : List (String × EdgeDirection)) (pos : List (String × Room)) :
    List (String × Room) × List String :=
  neighbors.foldl (fun acc n =>
    if posHas acc.1 n.1 then acc
    else
      match rooms.find? (fun r => r.id == n.1) with
      | none => acc
      | some nd =>
        (acc.1 ++
          [(n.1, mkPlaced nd
              (calculateAdjacentPosition curRoom ⟨nd.width, ch, nd.depth⟩ n.2) ch)],
         acc.2 ++ [n.1])) (pos, [])

/-- The BFS `while` loop, fuel-indexed.  Each dequeued id was positioned
when it was enqueued, and at most one id is ever enqueued per distinct room
id, so `rooms.length + 1` fuel always outlasts the queue (the source's loop
simply runs until the queue empties). -/
def bfsLoop (rooms : List ParsedRoom) (adjacency : List AdjacencyRelation) (ch : ℚ) :
    ℕ → List String → List (String × Room) → List (String × Room)
  | 0, _, pos => pos
  | _ + 1, [], pos => pos
  | fuel + 1, cur :: queue, pos =>
    match posGet pos cur with
    | none => bfsLoop rooms adjacency ch fuel queue pos
    | some curRoom =>
      let e := bfsExpand rooms ch curRoom (neighborsOf adjacency cur) pos
      bfsLoop rooms adjacency ch fuel (queue ++ e.2) e.1

/-- `entryRoomId || rooms[0].id` (the source would fault on an empty room
list with no entry id; that case never reaches the BFS loop because the
start-room lookup then fails). -/
def startRoomIdOf (ai : AIResponse) : String :=
  match ai.entryRoomId with
  | some eid => eid
  | none =>
    match ai.rooms with
    | [] => ""
    | r :: _ => r.id

/-- The positioned map after the BFS traversal; `none` when the start room
is missing (the source then falls back to the grid strategy). -/
def bfsPositioned (ai : AIResponse) : Option (List (String × Room)) :=
  match ai.rooms.find? (fun r => r.id == startRoomIdOf ai) with
  | none => none
  | some startRoom =>
    some (bfsLoop ai.rooms ai.adjacency ai.ceilingHeight (ai.rooms.length + 1)
      [startRoom.id]
      [(startRoom.id, mkPlaced startRoom ⟨0, 0, 0⟩ ai.ceilingHeight)])

/-- The overflow pass over `rooms`: every id still unpositioned is appended
at `[offsetX + width/2, 0, -10]` (`unconnectedZ = -10`), `offsetX` advancing
by `width + WALL_THICKNESS`.  State: (positioned-so-far, offsetX). -/
def overflowLoop (ch : ℚ) (rooms : List ParsedRoom)
    (st : List (String × Room) × ℚ) : List (String × Room) × ℚ :=
  rooms.foldl (fun acc r =>
    if posHas acc.1 r.id then acc
    else (acc.1 ++ [(r.id, mkPlaced r ⟨acc.2 + r.width / 2, 0, -10⟩ ch)],
          acc.2 + r.width + WALL_THICKNESS)) st

/-- `arrangeWithBFS`: BFS placement from the entry room, then the overflow
pass; falls back to the grid strategy when there is no adjacency data or no
start room. -/
def arrangeWithBFS (ow : ℚ) (ai : AIResponse) : FloorplanData :=
  if ai.adjacency.isEmpty then arrangeInGrid ow ai
  else
    match bfsPositioned ai with
    | none => arrangeInGrid ow ai
    | some pos =>
      ⟨((overflowLoop ai.ceilingHeight ai.rooms (pos, 0)).1).map Prod.snd⟩

/-- **C1**. In the BFS strategy, a neighbor placed from a base room via edge
direction `d` is offset on `d`'s axis by `baseExtent/2 + newExtent/2 +
WALL_THICKNESS` and keeps the base room's perpendicular coordinate; in
particular, for the entry room `[2, 2.4, 2]` at the origin, a kitchen
`[3, 2.4, 2]`, and the single adjacency `(entry, kitchen, east)`, the
kitchen's position is `[2.6, 0, 0]`. -/
theorem C1_bfs_adjacent_position :
    (∀ (base : Room) (nd : Dim3),
      calculateAdjacentPosition base nd .east =
        ⟨base.position.x + base.dimensions.w / 2 + nd.w / 2 + WALL_THICKNESS,
          0, base.position.z⟩ ∧
      calculateAdjacentPosition base nd .west =
        ⟨base.position.x - base.dimensions.w / 2 - nd.w / 2 - WALL_THICKNESS,
          0, base.position.z⟩ ∧
      calculateAdjacentPosition base nd .north =
        ⟨base.position.x, 0,
          base.position.z + base.dimensions.d / 2 + nd.d / 2 + WALL_THICKNESS⟩ ∧
      calculateAdjacentPosition base nd .south =
        ⟨base.position.x, 0,
          base.position.z - base.dimensions.d / 2 - nd.d / 2 - WALL_THICKNESS⟩) ∧
    ((arrangeWithBFS 0
        ⟨[⟨"entry", "Entry", 2, 2, none⟩, ⟨"kitchen", "Kitchen", 3, 2, none⟩],
         [⟨"entry", "kitchen", .east⟩], 12/5, some "entry"⟩).rooms.find?
        (fun r => r.id == "kitchen")).map (fun r => r.position)
      = some ⟨13/5, 0, 0⟩ := by
  refine ⟨fun base nd => ⟨rfl, rfl, rfl, rfl⟩, ?_⟩
  have hb : (arrangeWithBFS 0
      ⟨[⟨"entry", "Entry", 2, 2, none⟩, ⟨"kitchen", "Kitchen", 3, 2, none⟩],
       [⟨"entry", "kitchen", .east⟩], 12/5, some "entry"⟩).rooms.find?
      (fun r => r.id == "kitchen")
      = some ⟨"kitchen", "Kitchen", ⟨0 + 2/2 + 3/2 + 1/10, 0, 0⟩, ⟨3, 12/5, 2⟩⟩ := rfl
  rw [hb]
  norm_num

/-- A three-room input whose BFS cluster reaches down to the overflow row:
`e` (depth 18 m) has `a1` to its south, placing `a1` at `z = −10.1`; the
disconnected room `f` lands at `z = −10` in the overflow row and overlaps
`a1`. -/
def exC7bad : AIResponse :=
  ⟨[⟨"e", "Entry", 2, 18, none⟩, ⟨"a1", "Room", 2, 2, none⟩, ⟨"f", "Store", 2, 2, none⟩],
   [⟨"e", "a1", EdgeDirection.south⟩], 12/5, some "e"⟩

/-- **C7 counterexample**.  In `exC7bad`, `a1` is positioned by the BFS
traversal and `f` is not; `f` is placed in the overflow row at `[1, 0, −10]`
while `a1` sits at `[0, 0, −10.1]`, and the two bounding boxes overlap on
both horizontal axes — refuting “no overflow-placed room's bounding box
overlaps the bounding box of any room positioned by the BFS traversal”. -/
theorem C7_counterexample :
    (bfsPositioned exC7bad).map (fun pos => (posHas pos "a1", posHas pos "f"))
      = some (true, false) ∧
    (arrangeWithBFS 0 exC7bad).rooms.find? (fun r => r.id == "a1")
      = some ⟨"a1", "Room", ⟨0, 0, -101/10⟩, ⟨2, 12/5, 2⟩⟩ ∧
    (arrangeWithBFS 0 exC7bad).rooms.find? (fun r => r.id == "f")
      = some ⟨"f", "Store", ⟨1, 0, -10⟩, ⟨2, 12/5, 2⟩⟩ ∧
    0 < xOverlapAmt ⟨"a1", "Room", ⟨0, 0, -101/10⟩, ⟨2, 12/5, 2⟩⟩
        ⟨"f", "Store", ⟨1, 0, -10⟩, ⟨2, 12/5, 2⟩⟩ ∧
    0 < zOverlapAmt ⟨"a1", "Room", ⟨0, 0, -101/10⟩, ⟨2, 12/5, 2⟩⟩
        ⟨"f", "Store", ⟨1, 0, -10⟩, ⟨2, 12/5, 2⟩⟩ := by
  refine ⟨rfl, ?_, ?_, ?_, ?_⟩
  · have h : (arrangeWithBFS 0 exC7bad).rooms.find? (fun r => r.id == "a1")
        = some ⟨"a1", "Room", ⟨0, 0, 0 - 18/2 - 2/2 - 1/10⟩, ⟨2, 12/5, 2⟩⟩ := rfl
    rw [h]
    norm_num
  · have h : (arrangeWithBFS 0 exC7bad).rooms.find? (fun r => r.id == "f")
        = some ⟨"f", "Store", ⟨0 + 2/2, 0, -10⟩, ⟨2, 12/5, 2⟩⟩ := rfl
    rw [h]
    norm_num
  · norm_num [xOverlapAmt, xLow, xHigh]
  · norm_num [zOverlapAmt, zLow, zHigh]

/-- The overflow pass appends exactly the unpositioned rooms in a row at
`z = −10`, with pairwise disjoint x extents. -/
theorem overflowLoop_spec (ch : ℚ) :
    ∀ (rooms : List ParsedRoom) (init : List (String × Room)) (x0 : ℚ),
      (∀ r ∈ rooms, 0 < r.width) →
      ((rooms.map (fun r => r.id)).Nodup) →
      ∃ added : List (String × Room),
        (overflowLoop ch rooms (init, x0)).1 = init ++ added ∧
        (∀ p ∈ added, p.2.position.z = -10 ∧ p.2.position.y = 0 ∧ x0 ≤ xLow p.2) ∧
        added.Pairwise (fun p q => xOverlapAmt p.2 q.2 = 0) ∧
        (∀ r ∈ rooms, posHas init r.id = false →
          ∃ p ∈ added, p.1 = r.id ∧ p.2.id = r.id ∧ p.2.position.z = -10 ∧
            p.2.position.y = 0 ∧ p.2.dimensions = ⟨r.width, ch, r.depth⟩) := by
  intro rooms
  induction rooms with
  | nil =>
    intro init x0 _ _
    exact ⟨[], by simp [overflowLoop], by simp, List.Pairwise.nil, by simp⟩
  | cons r rest ih =>
    intro init x0 hw hnd
    rw [List.map_cons, List.nodup_cons] at hnd
    have hwr : 0 < r.width := hw r (List.mem_cons_self r rest)
    have hwrest : ∀ x ∈ rest, 0 < x.width :=
      fun x hx => hw x (List.mem_cons_of_mem r hx)
    by_cases hh : posHas init r.id
    · have hstep : overflowLoop ch (r :: rest) (init, x0)
          = overflowLoop ch rest (init, x0) := by
        unfold overflowLoop
        rw [List.foldl_cons, if_pos hh]
      obtain ⟨added, h1, h2, h3, h4⟩ := ih init x0 hwrest hnd.2
      refine ⟨added, by rw [hstep]; exact h1, h2, h3, fun x hx hxp => ?_⟩
      rcases List.mem_cons.mp hx with rfl | hx
      · rw [hh] at hxp; exact absurd hxp (by simp)
      · exact h4 x hx hxp
    · rw [Bool.not_eq_true] at hh
      set pr : String × Room := (r.id, mkPlaced r ⟨x0 + r.width / 2, 0, -10⟩ ch) with hpr
      have hstep : overflowLoop ch (r :: rest) (init, x0)
          = overflowLoop ch rest (init ++ [pr], x0 + r.width + WALL_THICKNESS) := by
        unfold overflowLoop
        rw [List.foldl_cons, if_neg (by rw [hh]; exact Bool.false_ne_true)]
      have hprz : pr.2.position.z = -10 := rfl
      have hpry : pr.2.position.y = 0 := rfl
      have hprLow : xLow pr.2 = x0 := by
        unfold xLow
        rw [hpr]
        show (x0 + r.width / 2) - r.width / 2 = x0
        ring
      have hprHigh : xHigh pr.2 = x0 + r.width := by
        unfold xHigh
        rw [hpr]
        show (x0 + r.width / 2) + r.width / 2 = x0 + r.width
        ring
      obtain ⟨added, h1, h2, h3, h4⟩ :=
        ih (init ++ [pr]) (x0 + r.width + WALL_THICKNESS) hwrest hnd.2
      refine ⟨pr :: added, ?_, ?_, ?_, ?_⟩
      · rw [hstep, h1, List.append_assoc]
        rfl
      · intro p hp
        rcases List.mem_cons.mp hp with rfl | hp
        · exact ⟨hprz, hpry, le_of_eq hprLow.symm⟩
        · obtain ⟨hz, hy, hx⟩ := h2 p hp
          refine ⟨hz, hy, le_trans ?_ hx⟩
          unfold WALL_THICKNESS
          linarith
      · refine List.pairwise_cons.mpr ⟨fun q hq => ?_, h3⟩
        obtain ⟨-, -, hx⟩ := h2 q hq
        unfold xOverlapAmt
        rw [hprHigh, hprLow]
        apply max_eq_left
        have h1' : min (x0 + r.width) (xHigh q.2) ≤ x0 + r.width := min_le_left _ _
        have h2' : xLow q.2 ≤ max x0 (xLow q.2) := le_max_right _ _
        unfold WALL_THICKNESS at hx
        linarith
      · intro x hx hxp
        rcases List.mem_cons.mp hx with rfl | hx
        · exact ⟨pr, List.mem_cons_self _ _, rfl, rfl, hprz, hpry, rfl⟩
        · have hne : x.id ≠ r.id := by
            intro he
            exact hnd.1 (he ▸ List.mem_map_of_mem (fun y => y.id) hx)
          have hxp' : posHas (init ++ [pr]) x.id = false := by
            unfold posHas at hxp ⊢
            rw [List.any_append, hxp]
            simp [hpr]
            exact fun he => hne he.symm
          obtain ⟨p, hp, hrest⟩ := h4 x hx hxp'
          exact ⟨p, List.mem_cons_of_mem _ hp, hrest⟩

/-- **C7 (amended)**.  When the BFS path runs (adjacency data present and
start room found), every room left unpositioned by the BFS traversal is
placed afterward in the overflow row: the final room list is the BFS-placed
rooms followed by one overflow entry per unreachable room at
`z = −10, y = 0` with its own dimensions, and no two overflow-placed rooms'
bounding boxes overlap (their x extents are disjoint).  The original claim's
stronger guarantee — that overflow rooms never overlap BFS-positioned
rooms — is refuted by `C7_counterexample`. -/
theorem C7_overflow_row (ow : ℚ) (ai : AIResponse) (pos : List (String × Room))
    (hpos : bfsPositioned ai = some pos)
    (hadj : ai.adjacency.isEmpty = false)
    (hids : (ai.rooms.map (fun r => r.id)).Nodup)
    (hw : ∀ r ∈ ai.rooms, 0 < r.width) :
    ∃ added : List (String × Room),
      (arrangeWithBFS ow ai).rooms = (pos ++ added).map Prod.snd ∧
      (∀ r ∈ ai.rooms, posHas pos r.id = false →
        ∃ p ∈ added, p.1 = r.id ∧ p.2.id = r.id ∧ p.2.position.z = -10 ∧
          p.2.position.y = 0 ∧ p.2.dimensions = ⟨r.width, ai.ceilingHeight, r.depth⟩) ∧
      added.Pairwise (fun p q => xOverlapAmt p.2 q.2 = 0) := by
  obtain ⟨added, h1, _h2, h3, h4⟩ :=
    overflowLoop_spec ai.ceilingHeight ai.rooms pos 0 hw hids
  refine ⟨added, ?_, h4, h3⟩
  unfold arrangeWithBFS
  rw [if_neg (by rw [hadj]; exact Bool.false_ne_true), hpos]
  show ((overflowLoop ai.ceilingHeight ai.rooms (pos, 0)).1).map Prod.snd = _
  rw [h1]

/-! ## Geometric adjacency fallback (`detectAdjacencyGeometric`) -/

/-- `Math.abs` lifted to `WithTop ℚ` (`Math.abs(Infinity) = Infinity`). -/
def absT : WithTop ℚ → WithTop ℚ
  | ⊤ => ⊤
  | (q : ℚ) => ((|q| : ℚ) : WithTop ℚ)

theorem absT_coe (q : ℚ) : absT ((q : ℚ) : WithTop ℚ) = ((|q| : ℚ) : WithTop ℚ) := rfl

/-- The source's direction order: north, south, east, west. -/
def DIRECTIONS : List EdgeDirection := [.north, .south, .east, .west]

/-- The per-direction acceptance test of `detectAdjacencyGeometric`:
`|edgeDistance| ≤ DISTANCE_THRESHOLD`, then overlap on the perpendicular
axis at least `if |edgeDistance| < 20 then 0 else OVERLAP_THRESHOLD`. -/
def acceptDir (rooms : List URoom) (T OT : ℚ) (r1 r2 : URoom)
    (edge : EdgeDirection) : Bool :=
  let distance := check_edge_distance rooms r1.id r2.id edge
  if absT distance ≤ (T : WithTop ℚ) then
    let axis : Axis := if edge = .north ∨ edge = .south then .x else .y
    let overlap := get_overlap_percentage rooms r1.id r2.id axis
    let isVeryClose := absT distance < ((20 : ℚ) : WithTop ℚ)
    let requiredOverlap := if isVeryClose then 0 else OT
    decide (requiredOverlap ≤ overlap)
  else false

/-- `detectAdjacencyGeometric`: thresholds depend on whether any room has a
`labelPosition` (real spatial data: 15 px / 50 %, grid fallback: 30 px /
60 %); each `i < j` pair contributes one relation for the first direction
(in `DIRECTIONS` order) that passes `acceptDir` (the source `break`s after
the first hit). -/
def detectAdjacencyGeometric (rooms : List URoom) : List AdjacencyRelation :=
  let hasClaudeSpatialData := rooms.any (fun r => r.labelPosition.isSome)
  let DISTANCE_THRESHOLD : ℚ := if hasClaudeSpatialData then 15 else 30
  let OVERLAP_THRESHOLD : ℚ := if hasClaudeSpatialData then 50 else 60
  (orderedPairs rooms).filterMap (fun p =>
    (DIRECTIONS.find?
      (acceptDir rooms DISTANCE_THRESHOLD OVERLAP_THRESHOLD p.1 p.2)).map
      (fun e => ⟨p.1.id, p.2.id, e⟩))

/-- Claim C3's acceptance criterion as literally stated: overlap may be
waived only when the distance is below 20 % of the distance threshold. -/
def acceptC3Literal (rooms : List URoom) (T OT : ℚ) (r1 r2 : URoom)
    (edge : EdgeDirection) : Bool :=
  let distance := check_edge_distance rooms r1.id r2.id edge
  let axis : Axis := if edge = .north ∨ edge = .south then .x else .y
  let overlap := get_overlap_percentage rooms r1.id r2.id axis
  decide (absT distance ≤ (T : WithTop ℚ)) &&
    (decide (OT ≤ overlap) || decide (absT distance < ((T * (2/10) : ℚ) : WithTop ℚ)))

/-- Claim C3's acceptance criterion amended to the code's rule: the overlap
requirement is waived whenever the distance is below 20 px (absolute). -/
def acceptC3Amended (rooms : List URoom) (T OT : ℚ) (r1 r2 : URoom)
    (edge : EdgeDirection) : Bool :=
  let distance := check_edge_distance rooms r1.id r2.id edge
  let axis : Axis := if edge = .north ∨ edge = .south then .x else .y
  let overlap := get_overlap_percentage rooms r1.id r2.id axis
  decide (absT distance ≤ (T : WithTop ℚ)) &&
    (decide (OT ≤ overlap) || decide (absT distance < ((20 : ℚ) : WithTop ℚ)))

/-- The amended claim C3 as a function: per unordered pair, the first
direction satisfying `acceptC3Amended` is reported, and nothing else. -/
def detectAdjacencySpecC3 (rooms : List URoom) : List AdjacencyRelation :=
  let hasRealSpatialData := rooms.any (fun r => r.labelPosition.isSome)
  let distanceThreshold : ℚ := if hasRealSpatialData then 15 else 30
  let overlapThreshold : ℚ := if hasRealSpatialData then 50 else 60
  (orderedPairs rooms).filterMap (fun p =>
    (DIRECTIONS.find?
      (acceptC3Amended rooms distanceThreshold overlapThreshold p.1 p.2)).map
      (fun e => ⟨p.1.id, p.2.id, e⟩))

/-- `get_overlap_percentage` never returns a negative value. -/
theorem get_overlap_percentage_nonneg (rooms : List URoom) (a b : String)
    (ax : Axis) : 0 ≤ get_overlap_percentage rooms a b ax := by
  unfold get_overlap_percentage
  cases h1 : findRoom rooms a with
  | none => exact le_refl 0
  | some r1 =>
    cases h2 : findRoom rooms b with
    | none => exact le_refl 0
    | some r2 =>
      cases ax with
      | x =>
        dsimp only
        split
        · rename_i hmin
          exact mul_nonneg (div_nonneg (le_max_left 0 _) (le_of_lt hmin)) (by norm_num)
        · exact le_refl 0
      | y =>
        dsimp only
        split
        · rename_i hmin
          exact mul_nonneg (div_nonneg (le_max_left 0 _) (le_of_lt hmin)) (by norm_num)
        · exact le_refl 0

/-- Pointwise, the code's acceptance rule coincides with the amended
criterion, because the overlap percentage is never negative. -/
theorem acceptDir_eq_amended (rooms : List URoom) (T OT : ℚ) (r1 r2 : URoom)
    (e : EdgeDirection) :
    acceptDir rooms T OT r1 r2 e = acceptC3Amended rooms T OT r1 r2 e := by
  unfold acceptDir acceptC3Amended
  by_cases hd : absT (check_edge_distance rooms r1.id r2.id e) ≤ (T : WithTop ℚ)
  · by_cases hvc : absT (check_edge_distance rooms r1.id r2.id e)
        < ((20 : ℚ) : WithTop ℚ)
    · have hnn := get_overlap_percentage_nonneg rooms r1.id r2.id
        (if e = .north ∨ e = .south then .x else .y)
      simp only [hd, if_true, if_pos hvc]
      simp [hnn]
      exact Or.inr (by exact_mod_cast hvc)
    · simp only [hd, if_true, if_neg hvc]
      simp
      intro h
      exact absurd (by exact_mod_cast h) hvc
  · simp [hd]

/-- First components of `orderedPairs` entries are members of the list. -/
theorem orderedPairs_fst_mem {α : Type} :
    ∀ {l : List α} {p : α × α}, p ∈ orderedPairs l → p.1 ∈ l := by
  intro l
  induction l with
  | nil => intro p hp; simp [orderedPairs] at hp
  | cons a as ih =>
    intro p hp
    simp only [orderedPairs, List.mem_append, List.mem_map] at hp
    rcases hp with ⟨b, _, rfl⟩ | hp
    · exact List.mem_cons_self a as
    · exact List.mem_cons_of_mem a (ih hp)

/-- Second components of `orderedPairs` entries are members of the list. -/
theorem orderedPairs_snd_mem {α : Type} :
    ∀ {l : List α} {p : α × α}, p ∈ orderedPairs l → p.2 ∈ l := by
  intro l
  induction l with
  | nil => intro p hp; simp [orderedPairs] at hp
  | cons a as ih =>
    intro p hp
    simp only [orderedPairs, List.mem_append, List.mem_map] at hp
    rcases hp with ⟨b, hb, rfl⟩ | hp
    · exact List.mem_cons_of_mem a hb
    · exact List.mem_cons_of_mem a (ih hp)

/-- Over a list with pairwise-distinct keys, distinct entries of
`orderedPairs` have distinct unordered key pairs. -/
theorem orderedPairs_pairwise_keys {α : Type} (f : α → String) :
    ∀ {l : List α}, (l.map f).Nodup →
      (orderedPairs l).Pairwise (fun p q =>
        ¬ ((f p.1 = f q.1 ∧ f p.2 = f q.2) ∨ (f p.1 = f q.2 ∧ f p.2 = f q.1))) := by
  intro l
  induction l with
  | nil => intro _; simp [orderedPairs]
  | cons a as ih =>
    intro h
    rw [List.map_cons, List.nodup_cons] at h
    have hne : as.Pairwise (fun b1 b2 => f b1 ≠ f b2) :=
      List.pairwise_map.mp h.2
    unfold orderedPairs
    rw [List.pairwise_append]
    refine ⟨?_, ih h.2, ?_⟩
    · rw [List.pairwise_map]
      refine hne.imp ?_
      intro b1 b2 hb
      rintro (⟨-, h2⟩ | ⟨h1, h2⟩)
      · exact hb h2
      · exact hb (h2.trans h1)
    · intro p hp q hq
      obtain ⟨b, hb, rfl⟩ := List.mem_map.mp hp
      rintro (⟨h1, -⟩ | ⟨h1, -⟩)
      · exact h.1 (h1 ▸ List.mem_map_of_mem f (orderedPairs_fst_mem hq))
      · exact h.1 (h1 ▸ List.mem_map_of_mem f (orderedPairs_snd_mem hq))

/-- `filterMap` transports a pairwise relation along the partial map. -/
theorem pairwise_filterMap_of {α β : Type} {R : β → β → Prop}
    (f : α → Option β) {S : α → α → Prop} :
    ∀ {l : List α}, l.Pairwise S →
      (∀ a b x y, S a b → f a = some x → f b = some y → R x y) →
      (l.filterMap f).Pairwise R := by
  intro l
  induction l with
  | nil => intro _ _; simp
  | cons a as ih =>
    intro h hf
    rw [List.pairwise_cons] at h
    rw [List.filterMap_cons]
    cases hfa : f a with
    | none => exact ih h.2 hf
    | some x =>
      refine List.pairwise_cons.mpr ⟨?_, ih h.2 hf⟩
      intro y hy
      obtain ⟨b, hb, hfb⟩ := List.mem_filterMap.mp hy
      exact hf a b x y (h.1 b hb) hfa hfb

/-- Concrete instantiation of `C7_overflow_row`: one positioned room, one
disconnected room. -/
theorem C7_overflow_row_witness :
    ∃ added : List (String × Room),
      (arrangeWithBFS 0
        ⟨[⟨"e", "Entry", 2, 2, none⟩, ⟨"f", "Store", 2, 2, none⟩],
         [⟨"e", "g", EdgeDirection.east⟩], 12/5, some "e"⟩).rooms
        = (([("e", mkPlaced ⟨"e", "Entry", 2, 2, none⟩ ⟨0, 0, 0⟩ (12/5))] ++ added).map
            Prod.snd) ∧
      (∀ r ∈ ([⟨"e", "Entry", 2, 2, none⟩, ⟨"f", "Store", 2, 2, none⟩] : List ParsedRoom),
        posHas [("e", mkPlaced ⟨"e", "Entry", 2, 2, none⟩ ⟨0, 0, 0⟩ (12/5))] r.id = false →
        ∃ p ∈ added, p.1 = r.id ∧ p.2.id = r.id ∧ p.2.position.z = -10 ∧
          p.2.position.y = 0 ∧ p.2.dimensions = ⟨r.width, 12/5, r.depth⟩) ∧
      added.Pairwise (fun p q => xOverlapAmt p.2 q.2 = 0) :=
  C7_overflow_row 0
    ⟨[⟨"e", "Entry", 2, 2, none⟩, ⟨"f", "Store", 2, 2, none⟩],
     [⟨"e", "g", EdgeDirection.east⟩], 12/5, some "e"⟩
    [("e", mkPlaced ⟨"e", "Entry", 2, 2, none⟩ ⟨0, 0, 0⟩ (12/5))]
    rfl rfl (by decide) (by decide)

/-- Fixture rooms for claim C3: label positions are present, so the tight
thresholds (15 px distance, 50 % overlap) apply; `b` sits 10 px east of `a`
with zero y-axis overlap. -/
def exC3a : URoom := ⟨"a", "A", 1, 1, some ⟨50, 50⟩, ⟨0, 0, 100, 100⟩, ⟨50, 50⟩, 10000⟩

/-- Second fixture room for claim C3. -/
def exC3b : URoom :=
  ⟨"b", "B", 1, 1, some ⟨160, 250⟩, ⟨110, 200, 100, 100⟩, ⟨160, 250⟩, 10000⟩

/-- **C3 counterexample**.  The fallback reports `(a, b, east)`: the rooms
are 10 px apart with 0 % overlap, and the code waives the overlap
requirement because 10 px < 20 px.  The claim's criterion — waiver only
below 20 % of the 15 px threshold, i.e. 3 px — rejects this pair+direction,
so the claim's "accepts exactly when" characterisation is false on this
input. -/
theorem C3_counterexample :
    detectAdjacencyGeometric [exC3a, exC3b] = [⟨"a", "b", .east⟩] ∧
    acceptC3Literal [exC3a, exC3b] 15 50 exC3a exC3b .east = false := by
  have hdN : check_edge_distance [exC3a, exC3b] exC3a.id exC3b.id .north
      = ((0 - (200 + 100) : ℚ) : WithTop ℚ) := rfl
  have hdS : check_edge_distance [exC3a, exC3b] exC3a.id exC3b.id .south
      = ((200 - (0 + 100) : ℚ) : WithTop ℚ) := rfl
  have hdE : check_edge_distance [exC3a, exC3b] exC3a.id exC3b.id .east
      = ((110 - (0 + 100) : ℚ) : WithTop ℚ) := rfl
  have hoY : get_overlap_percentage [exC3a, exC3b] exC3a.id exC3b.id Axis.y = 0 := by
    have h : get_overlap_percentage [exC3a, exC3b] exC3a.id exC3b.id Axis.y
        = (if min (100:ℚ) 100 > 0
           then max 0 (min (0 + 100) (200 + 100) - max 0 200) / min 100 100 * 100
           else 0) := rfl
    rw [h]
    norm_num
  have haxis : (if EdgeDirection.east = EdgeDirection.north ∨
      EdgeDirection.east = EdgeDirection.south then Axis.x else Axis.y) = Axis.y := rfl
  have hN : acceptDir [exC3a, exC3b] 15 50 exC3a exC3b .north = false := by
    simp only [acceptDir]
    rw [hdN]
    split
    · rename_i h
      exfalso
      simp only [absT_coe, WithTop.coe_le_coe] at h
      norm_num at h
    · rfl
  have hS : acceptDir [exC3a, exC3b] 15 50 exC3a exC3b .south = false := by
    simp only [acceptDir]
    rw [hdS]
    split
    · rename_i h
      exfalso
      simp only [absT_coe, WithTop.coe_le_coe] at h
      norm_num at h
    · rfl
  have hE : acceptDir [exC3a, exC3b] 15 50 exC3a exC3b .east = true := by
    simp only [acceptDir]
    rw [hdE, haxis, hoY]
    split
    · simp only [absT_coe, WithTop.coe_lt_coe]
      norm_num
    · rename_i h
      exfalso
      apply h
      simp only [absT_coe, WithTop.coe_le_coe]
      norm_num
  constructor
  · have hlab : ([exC3a, exC3b].any (fun r => r.labelPosition.isSome)) = true := by
      simp [exC3a, exC3b]
    have hida : exC3a.id = "a" := rfl
    have hidb : exC3b.id = "b" := rfl
    unfold detectAdjacencyGeometric
    rw [hlab]
    norm_num [orderedPairs, DIRECTIONS, hN, hS, hE, hida, hidb,
      List.filterMap_cons, List.find?_cons]
  · simp only [acceptC3Literal]
    rw [hdE, haxis, hoY]
    simp only [absT_coe, WithTop.coe_le_coe, WithTop.coe_lt_coe]
    norm_num

/-- **C3 (amended)**.  The geometric adjacency fallback equals, on every
input, the specification that accepts a pair+direction exactly when
`|edgeDistance| ≤ threshold` (15 px with real spatial data, 30 px
otherwise) and either the perpendicular overlap meets the overlap threshold
(50 % tight / 60 % loose) or `|edgeDistance| < 20 px` (absolute — the
amendment), taking the first qualifying direction per pair; and for
distinct room ids, each unordered pair is reported at most once. -/
theorem C3_geometric_adjacency (rooms : List URoom)
    (hids : (rooms.map (fun r => r.id)).Nodup) :
    detectAdjacencyGeometric rooms = detectAdjacencySpecC3 rooms ∧
    (detectAdjacencyGeometric rooms).Pairwise (fun x y =>
      ¬ ((x.room1 = y.room1 ∧ x.room2 = y.room2) ∨
         (x.room1 = y.room2 ∧ x.room2 = y.room1))) := by
  constructor
  · unfold detectAdjacencyGeometric detectAdjacencySpecC3
    refine List.filterMap_congr (fun p _ => ?_)
    have hfun : acceptDir rooms
        (if rooms.any (fun r => r.labelPosition.isSome) then 15 else 30)
        (if rooms.any (fun r => r.labelPosition.isSome) then 50 else 60) p.1 p.2
        = acceptC3Amended rooms
        (if rooms.any (fun r => r.labelPosition.isSome) then 15 else 30)
        (if rooms.any (fun r => r.labelPosition.isSome) then 50 else 60) p.1 p.2 :=
      funext (acceptDir_eq_amended rooms _ _ p.1 p.2)
    rw [hfun]
  · unfold detectAdjacencyGeometric
    apply pairwise_filterMap_of _
      (orderedPairs_pairwise_keys (fun r => r.id) hids)
    intro a b x y hS hfa hfb
    obtain ⟨e1, -, he1⟩ := Option.map_eq_some'.mp hfa
    obtain ⟨e2, -, he2⟩ := Option.map_eq_some'.mp hfb
    subst he1
    subst he2
    simpa using hS

/-- Concrete instantiation of `C3_geometric_adjacency`. -/
theorem C3_geometric_adjacency_witness :
    detectAdjacencyGeometric [exC3a, exC3b] = detectAdjacencySpecC3 [exC3a, exC3b] ∧
    (detectAdjacencyGeometric [exC3a, exC3b]).Pairwise (fun x y =>
      ¬ ((x.room1 = y.room1 ∧ x.room2 = y.room2) ∨
         (x.room1 = y.room2 ∧ x.room2 = y.room1))) :=
  C3_geometric_adjacency [exC3a, exC3b] (by decide)

/-! ## Room-to-contour matcher (`matchRoomsToContours`, first revision) -/

/-- `RoomContour` from `visionDetection.ts`; the optional boundary point
list is omitted — the matcher never reads it. -/
structure Contour where
  bbox : Box
  centroid : Pt
  area : ℚ
deriving DecidableEq, Repr

/-- Squared Euclidean distance.  The source compares `Math.sqrt` distances
only with each other and with the 200 px near-match threshold; `√` is
strictly monotone on nonnegatives, so the embedding compares squared
distances and the squared threshold exactly. -/
def distSq (p1 p2 : Pt) : ℚ := (p2.x - p1.x)^2 + (p2.y - p1.y)^2

/-- `isPointInBox` with margin. -/
def isPointInBox (point : Pt) (bbox : Box) (margin : ℚ) : Bool :=
  decide (point.x ≥ bbox.x - margin) &&
  decide (point.x ≤ bbox.x + bbox.width + margin) &&
  decide (point.y ≥ bbox.y - margin) &&
  decide (point.y ≤ bbox.y + bbox.height + margin)

/-- The best-candidate scan shared by the matcher's two strategies: fold
over indexed contours, skip used indices and those failing `pred`, keep the
candidate with the smallest (squared) centroid distance; `bestDistance`
starts at `Infinity = ⊤`.  Strategy 1 instantiates `pred` with the 20 px
containment test, strategy 2 with the constant `true`. -/
def bestSearch (contours : List Contour) (used : List ℕ) (p : Pt)
    (pred : Contour → Bool) : Option (ℕ × Contour) × WithTop ℚ :=
  contours.enum.foldl (fun acc ic =>
    if used.contains ic.1 then acc
    else if pred ic.2 then
      (if ((distSq p ic.2.centroid : ℚ) : WithTop ℚ) < acc.2
       then (some ic, ((distSq p ic.2.centroid : ℚ) : WithTop ℚ))
       else acc)
    else acc) (none, ⊤)

/-- Merge a semantic room with a contour's geometry (`{...room, bbox,
centroid, areaPixels}`). -/
def mkUnified (room : ParsedRoom) (c : Contour) : URoom :=
  ⟨room.id, room.name, room.width, room.depth, room.labelPosition,
    c.bbox, c.centroid, c.area⟩

/-- One room's matching step.  State: (unified list, used contour indices).
Exact matches (label inside bbox with 20 px margin) face no distance cap
(`maxDistance = Infinity`); near matches must be within 200 px (squared:
`200²`). -/
def matchStep (contours : List Contour) (st : List URoom × List ℕ)
    (room : ParsedRoom) : List URoom × List ℕ :=
  match room.labelPosition with
  | none => st
  | some p =>
    let exact := bestSearch contours st.2 p (fun c => isPointInBox p c.bbox 20)
    match exact.1 with
    | some ic =>
      if exact.2 < (⊤ : WithTop ℚ)
      then (st.1 ++ [mkUnified room ic.2], st.2 ++ [ic.1])
      else st
    | none =>
      let near := bestSearch contours st.2 p (fun _ => true)
      match near.1 with
      | some ic =>
        if near.2 < (((200 : ℚ)^2 : ℚ) : WithTop ℚ)
        then (st.1 ++ [mkUnified room ic.2], st.2 ++ [ic.1])
        else st
      | none => st

/-- The matcher's main loop over rooms. -/
def matchLoop (contours : List Contour) (claudeRooms : List ParsedRoom) :
    List URoom × List ℕ :=
  claudeRooms.foldl (matchStep contours) ([], [])

/-- `matchRoomsToContours` (first revision, no contour pre-filter). -/
def matchRoomsToContours (claudeRooms : List ParsedRoom)
    (contours : List Contour) : List URoom :=
  (matchLoop contours claudeRooms).1

/-- A successful `bestSearch` returns an unused index holding the returned
contour. -/
theorem bestSearch_some (contours : List Contour) (used : List ℕ) (p : Pt)
    (pred : Contour → Bool) (ic : ℕ × Contour)
    (h : (bestSearch contours used p pred).1 = some ic) :
    used.contains ic.1 = false ∧ contours.get? ic.1 = some ic.2 := by
  have main : ∀ (l : List (ℕ × Contour)) (acc : Option (ℕ × Contour) × WithTop ℚ),
      (∀ x ∈ l, contours.get? x.1 = some x.2) →
      (∀ jc, acc.1 = some jc →
        used.contains jc.1 = false ∧ contours.get? jc.1 = some jc.2) →
      ∀ jc, ((l.foldl (fun acc ic =>
        if used.contains ic.1 then acc
        else if pred ic.2 then
          (if ((distSq p ic.2.centroid : ℚ) : WithTop ℚ) < acc.2
           then (some ic, ((distSq p ic.2.centroid : ℚ) : WithTop ℚ))
           else acc)
        else acc) acc).1 = some jc) →
        used.contains jc.1 = false ∧ contours.get? jc.1 = some jc.2 := by
    intro l
    induction l with
    | nil => intro acc _ hacc jc hjc; exact hacc jc hjc
    | cons x xs ih =>
      intro acc hl hacc jc hjc
      rw [List.foldl_cons] at hjc
      refine ih _ (fun y hy => hl y (List.mem_cons_of_mem x hy)) ?_ jc hjc
      intro kc hkc
      by_cases hu : used.contains x.1 = true
      · rw [if_pos hu] at hkc
        exact hacc kc hkc
      · rw [if_neg hu] at hkc
        by_cases hp : pred x.2 = true
        · rw [if_pos hp] at hkc
          by_cases hlt : ((distSq p x.2.centroid : ℚ) : WithTop ℚ) < acc.2
          · rw [if_pos hlt] at hkc
            have hx : x = kc := Option.some.inj hkc
            subst hx
            exact ⟨eq_false_of_ne_true hu, hl x (List.mem_cons_self x xs)⟩
          · rw [if_neg hlt] at hkc
            exact hacc kc hkc
        · rw [if_neg hp] at hkc
          exact hacc kc hkc
  refine main contours.enum (none, ⊤)
    (fun x hx => List.mem_enum_iff_get?.mp hx) ?_ ic h
  intro jc hjc
  exact absurd hjc (by simp)

/-- The per-contour geometry-provenance relation of claim C4: the unified
room's geometry fields are copied from the contour at the used index. -/
def geomFrom (contours : List Contour) (ur : URoom) (i : ℕ) : Prop :=
  ∃ c, contours.get? i = some c ∧
    ur.bbox = c.bbox ∧ ur.centroid = c.centroid ∧ ur.areaPixels = c.area

/-- The matcher-loop invariant: the used list is duplicate-free, addresses
only existing contours, and aligns one-to-one with the emitted rooms'
geometry. -/
def MatchInv (contours : List Contour) (st : List URoom × List ℕ) : Prop :=
  st.2.Nodup ∧ (∀ i ∈ st.2, i < contours.length) ∧
    List.Forall₂ (geomFrom contours) st.1 st.2

theorem matchStep_inv {contours : List Contour} {st : List URoom × List ℕ}
    (h : MatchInv contours st) (room : ParsedRoom) :
    MatchInv contours (matchStep contours st room) := by
  obtain ⟨hnd, hbd, hfa⟩ := h
  have haccept : ∀ (ic : ℕ × Contour), st.2.contains ic.1 = false →
      contours.get? ic.1 = some ic.2 →
      MatchInv contours (st.1 ++ [mkUnified room ic.2], st.2 ++ [ic.1]) := by
    intro ic hu hg
    refine ⟨?_, ?_, ?_⟩
    · rw [List.nodup_append]
      refine ⟨hnd, List.nodup_singleton _, ?_⟩
      intro a ha hb
      rw [List.mem_singleton] at hb
      subst hb
      exact (by simpa using hu : ic.1 ∉ st.2) ha
    · intro i hi
      rcases List.mem_append.mp hi with hi | hi
      · exact hbd i hi
      · rw [List.mem_singleton] at hi
        subst hi
        exact (List.get?_eq_some.mp hg).1
    · exact List.rel_append hfa
        (List.forall₂_cons.mpr ⟨⟨ic.2, hg, rfl, rfl, rfl⟩, List.Forall₂.nil⟩)
  unfold matchStep
  cases hlp : room.labelPosition with
  | none => exact ⟨hnd, hbd, hfa⟩
  | some p =>
    dsimp only
    cases hex : (bestSearch contours st.2 p (fun c => isPointInBox p c.bbox 20)).1 with
    | some ic =>
      dsimp only
      obtain ⟨hu, hg⟩ := bestSearch_some contours st.2 p _ ic hex
      by_cases hlt : (bestSearch contours st.2 p
          (fun c => isPointInBox p c.bbox 20)).2 < (⊤ : WithTop ℚ)
      · rw [if_pos hlt]
        exact haccept ic hu hg
      · rw [if_neg hlt]
        exact ⟨hnd, hbd, hfa⟩
    | none =>
      dsimp only
      cases hnr : (bestSearch contours st.2 p (fun _ => true)).1 with
      | some ic =>
        dsimp only
        obtain ⟨hu, hg⟩ := bestSearch_some contours st.2 p _ ic hnr
        by_cases hlt : (bestSearch contours st.2 p (fun _ => true)).2
            < (((200 : ℚ)^2 : ℚ) : WithTop ℚ)
        · rw [if_pos hlt]
          exact haccept ic hu hg
        · rw [if_neg hlt]
          exact ⟨hnd, hbd, hfa⟩
      | none => exact ⟨hnd, hbd, hfa⟩

/-- A matching step grows the unified list by at most one entry. -/
theorem matchStep_length (contours : List Contour) (st : List URoom × List ℕ)
    (room : ParsedRoom) :
    (matchStep contours st room).1.length ≤ st.1.length + 1 := by
  unfold matchStep
  cases hlp : room.labelPosition with
  | none => exact Nat.le_succ _
  | some p =>
    dsimp only
    cases hex : (bestSearch contours st.2 p (fun c => isPointInBox p c.bbox 20)).1 with
    | some ic =>
      dsimp only
      by_cases hlt : (bestSearch contours st.2 p
          (fun c => isPointInBox p c.bbox 20)).2 < (⊤ : WithTop ℚ)
      · rw [if_pos hlt]
        simp
      · rw [if_neg hlt]
        exact Nat.le_succ _
    | none =>
      dsimp only
      cases hnr : (bestSearch contours st.2 p (fun _ => true)).1 with
      | some ic =>
        dsimp only
        by_cases hlt : (bestSearch contours st.2 p (fun _ => true)).2
            < (((200 : ℚ)^2 : ℚ) : WithTop ℚ)
        · rw [if_pos hlt]
          simp
        · rw [if_neg hlt]
          exact Nat.le_succ _
      | none => exact Nat.le_succ _

/-- The matcher loop's invariant holds at the end, and the output length is
bounded by the number of rooms. -/
theorem matchLoop_spec (contours : List Contour) (claudeRooms : List ParsedRoom) :
    MatchInv contours (matchLoop contours claudeRooms) ∧
    (matchLoop contours claudeRooms).1.length ≤ claudeRooms.length := by
  have main : ∀ (l : List ParsedRoom) (st : List URoom × List ℕ),
      MatchInv contours st →
      MatchInv contours (l.foldl (matchStep contours) st) ∧
      (l.foldl (matchStep contours) st).1.length ≤ st.1.length + l.length := by
    intro l
    induction l with
    | nil => intro st h; exact ⟨h, Nat.le_add_right _ 0⟩
    | cons r rs ih =>
      intro st h
      rw [List.foldl_cons]
      obtain ⟨h1, h2⟩ := ih (matchStep contours st r) (matchStep_inv h r)
      refine ⟨h1, le_trans h2 ?_⟩
      have := matchStep_length contours st r
      calc (matchStep contours st r).1.length + rs.length
          ≤ (st.1.length + 1) + rs.length := Nat.add_le_add_right this _
        _ = st.1.length + (r :: rs).length := by
            simp [List.length_cons]
            ring
  have h0 : MatchInv contours (([], []) : List URoom × List ℕ) :=
    ⟨List.nodup_nil, fun i hi => absurd hi (List.not_mem_nil i), List.Forall₂.nil⟩
  obtain ⟨h1, h2⟩ := main claudeRooms ([], []) h0
  exact ⟨h1, by simpa using h2⟩

/-- A duplicate-free list of indices below `n` has at most `n` entries. -/
theorem nodup_bounded_length_le (used : List ℕ) (n : ℕ) (hnd : used.Nodup)
    (hb : ∀ i ∈ used, i < n) : used.length ≤ n := by
  have h1 : used.toFinset.card = used.length := List.toFinset_card_of_nodup hnd
  have h2 : used.toFinset ⊆ Finset.range n := by
    intro i hi
    rw [List.mem_toFinset] at hi
    exact Finset.mem_range.mpr (hb i hi)
  calc used.length = used.toFinset.card := h1.symm
    _ ≤ (Finset.range n).card := Finset.card_le_card h2
    _ = n := Finset.card_range n

/-- **C4**.  For every input, `matchRoomsToContours` emits at most
`min (#rooms) (#contours)` unified rooms; the used-contour index list is
duplicate-free (each contour entry is used at most once) and aligns
one-to-one with the emitted rooms, each of which copies its geometry from
its own used contour. -/
theorem C4_matcher_injective (claudeRooms : List ParsedRoom)
    (contours : List Contour) :
    (matchRoomsToContours claudeRooms contours).length
        ≤ min claudeRooms.length contours.length ∧
    (matchLoop contours claudeRooms).2.Nodup ∧
    List.Forall₂ (geomFrom contours) (matchRoomsToContours claudeRooms contours)
      (matchLoop contours claudeRooms).2 := by
  obtain ⟨⟨hnd, hbd, hfa⟩, hlen⟩ := matchLoop_spec contours claudeRooms
  refine ⟨?_, hnd, hfa⟩
  rw [le_min_iff]
  refine ⟨hlen, ?_⟩
  rw [show (matchRoomsToContours claudeRooms contours).length
      = (matchLoop contours claudeRooms).2.length from List.Forall₂.length_eq hfa]
  exact nodup_bounded_length_le _ _ hnd hbd

/-- Claim C6's premise: the point lies strictly inside the box. -/
def strictlyInsideBox (p : Pt) (b : Box) : Prop :=
  b.x < p.x ∧ p.x < b.x + b.width ∧ b.y < p.y ∧ p.y < b.y + b.height

/-- Claim C6's premise: the point lies strictly outside the box. -/
def strictlyOutsideBox (p : Pt) (b : Box) : Prop :=
  p.x < b.x ∨ b.x + b.width < p.x ∨ p.y < b.y ∨ b.y + b.height < p.y

/-- **C6 counterexample**.  The label `(195, 50)` lies strictly inside
contour A's bbox `(0, 0, 200×100)` and strictly outside contour B's bbox
`(210, 0, 30×100)`; both contours are unused, yet the matcher assigns the
room to B: the 20 px containment margin admits B as an "exact" candidate
and B's centroid is the closer one (30 px vs 95 px). -/
theorem C6_counterexample :
    strictlyInsideBox ⟨195, 50⟩ (⟨0, 0, 200, 100⟩ : Box) ∧
    strictlyOutsideBox ⟨195, 50⟩ (⟨210, 0, 30, 100⟩ : Box) ∧
    matchRoomsToContours [⟨"r", "Room", 3, 3, some ⟨195, 50⟩⟩]
        [⟨⟨0, 0, 200, 100⟩, ⟨100, 50⟩, 20000⟩, ⟨⟨210, 0, 30, 100⟩, ⟨225, 50⟩, 3000⟩]
      = [⟨"r", "Room", 3, 3, some ⟨195, 50⟩, ⟨210, 0, 30, 100⟩, ⟨225, 50⟩, 3000⟩] := by
  refine ⟨by norm_num [strictlyInsideBox], by norm_num [strictlyOutsideBox], ?_⟩
  have hA : isPointInBox ⟨195, 50⟩ (⟨0, 0, 200, 100⟩ : Box) 20 = true := by
    norm_num [isPointInBox]
  have hB : isPointInBox ⟨195, 50⟩ (⟨210, 0, 30, 100⟩ : Box) 20 = true := by
    norm_num [isPointInBox]
  have hbs : bestSearch
      [⟨⟨0, 0, 200, 100⟩, ⟨100, 50⟩, 20000⟩, ⟨⟨210, 0, 30, 100⟩, ⟨225, 50⟩, 3000⟩]
      [] ⟨195, 50⟩ (fun c => isPointInBox ⟨195, 50⟩ c.bbox 20)
      = (some (1, ⟨⟨210, 0, 30, 100⟩, ⟨225, 50⟩, 3000⟩),
         ((distSq ⟨195, 50⟩ ⟨225, 50⟩ : ℚ) : WithTop ℚ)) := by
    unfold bestSearch
    rw [show ([⟨⟨0, 0, 200, 100⟩, ⟨100, 50⟩, 20000⟩,
        ⟨⟨210, 0, 30, 100⟩, ⟨225, 50⟩, 3000⟩] : List Contour).enum
        = [(0, ⟨⟨0, 0, 200, 100⟩, ⟨100, 50⟩, 20000⟩),
           (1, ⟨⟨210, 0, 30, 100⟩, ⟨225, 50⟩, 3000⟩)] from rfl,
      List.foldl_cons, List.foldl_cons, List.foldl_nil]
    have hlt : ((distSq ⟨195, 50⟩ ⟨225, 50⟩ : ℚ) : WithTop ℚ)
        < ((distSq ⟨195, 50⟩ ⟨100, 50⟩ : ℚ) : WithTop ℚ) := by
      rw [WithTop.coe_lt_coe]
      norm_num [distSq]
    simp [hA, hB, WithTop.coe_lt_top, hlt]
  unfold matchRoomsToContours matchLoop
  rw [List.foldl_cons, List.foldl_nil]
  unfold matchStep
  dsimp only
  rw [hbs]
  simp [mkUnified, WithTop.coe_lt_top]

/-- **C6 (amended)**.  If the room's label lies strictly inside contour A's
bbox and outside contour B's bbox even after the matcher's 20 px margin is
added, and both contours are unused, the matcher assigns the room to A and
never to B (in either input order).  The original claim — with the premise
"strictly outside B's bbox" (without the margin) — is refuted by
`C6_counterexample`. -/
theorem C6_label_containment (i n : String) (w d : ℚ) (p : Pt) (A B : Contour)
    (h1 : strictlyInsideBox p A.bbox)
    (h2 : isPointInBox p B.bbox 20 = false) :
    matchRoomsToContours [⟨i, n, w, d, some p⟩] [A, B]
      = [⟨i, n, w, d, some p, A.bbox, A.centroid, A.area⟩] ∧
    matchRoomsToContours [⟨i, n, w, d, some p⟩] [B, A]
      = [⟨i, n, w, d, some p, A.bbox, A.centroid, A.area⟩] := by
  obtain ⟨ha1, ha2, ha3, ha4⟩ := h1
  have hA : isPointInBox p A.bbox 20 = true := by
    simp only [isPointInBox, Bool.and_eq_true, decide_eq_true_eq]
    refine ⟨⟨⟨?_, ?_⟩, ?_⟩, ?_⟩ <;> [skip; skip; skip; skip] <;> linarith
  constructor
  · have hbs : bestSearch [A, B] [] p (fun c => isPointInBox p c.bbox 20)
        = (some (0, A), ((distSq p A.centroid : ℚ) : WithTop ℚ)) := by
      unfold bestSearch
      rw [show ([A, B] : List Contour).enum = [(0, A), (1, B)] from rfl,
        List.foldl_cons, List.foldl_cons, List.foldl_nil]
      simp [hA, h2, WithTop.coe_lt_top]
    unfold matchRoomsToContours matchLoop
    rw [List.foldl_cons, List.foldl_nil]
    unfold matchStep
    dsimp only
    rw [hbs]
    simp [mkUnified, WithTop.coe_lt_top]
  · have hbs : bestSearch [B, A] [] p (fun c => isPointInBox p c.bbox 20)
        = (some (1, A), ((distSq p A.centroid : ℚ) : WithTop ℚ)) := by
      unfold bestSearch
      rw [show ([B, A] : List Contour).enum = [(0, B), (1, A)] from rfl,
        List.foldl_cons, List.foldl_cons, List.foldl_nil]
      simp [hA, h2, WithTop.coe_lt_top]
    unfold matchRoomsToContours matchLoop
    rw [List.foldl_cons, List.foldl_nil]
    unfold matchStep
    dsimp only
    rw [hbs]
    simp [mkUnified, WithTop.coe_lt_top]

/-! ### C9: synthetic contour generation (`generateSyntheticContours`, revision 2)

`Math.sqrt` produces irrational values in general, so this part of the
embedding lives over `ℝ` (`Real.sqrt`; hence the `noncomputable section`).
`Math.atan2` enters the source only through `cos(atan2(dy, dx))` and
`sin(atan2(dy, dx))`, which equal `dx / dist` and `dy / dist` for
`dist = √(dx² + dy²) ≠ 0`, and `1`, `0` at `dist = 0` (JS:
`atan2(0, 0) = 0`); the embedding uses those closed forms.  STEP 2 of the
source (the proximity graph) only logs and changes no state, so it is
omitted. -/

structure PtZ where
  x : ℤ
  y : ℤ

structure BoxZ where
  x : ℤ
  y : ℤ
  width : ℤ
  height : ℤ

/-- Output record of `generateSyntheticContours`: the parsed room enriched
with pixel geometry (every pixel value passes through `Math.round`,
hence `ℤ`). -/
structure SynthRoom where
  id : String
  name : String
  width : ℚ
  depth : ℚ
  labelPosition : Option Pt
  bbox : BoxZ
  centroid : PtZ
  areaPixels : ℤ

/-- One entry of the mutable `roomData` array. -/
structure RoomDataR where
  room : ParsedRoom
  width : ℝ
  height : ℝ
  labelPos : Pt
  cx : ℝ
  cy : ℝ

/-- The index pairs `(i, j)` with `i < j < n`, in the order the nested
`for`-loops of the overlap-resolution pass visit them. -/
def pairIdx (n : ℕ) : List (ℕ × ℕ) :=
  (List.range n).flatMap fun i => ((List.range n).drop (i + 1)).map fun j => (i, j)

noncomputable section

/-- JS `Math.round` on a real argument: round half towards `+∞`. -/
def jsRoundR (x : ℝ) : ℤ := ⌊x + 1/2⌋

/-- One iteration of the overlap-resolution double loop (STEP 1 of
`generateSyntheticContours`): if the rooms at indices `i < j` sit closer
(label position to label position) than the sum of their pixel
half-widths, push both centroids apart along the line connecting the
labels, by `(minDist - dist)/2 + 20` each. -/
def resolveStep (rd : List RoomDataR) (ij : ℕ × ℕ) : List RoomDataR :=
  match rd.get? ij.1, rd.get? ij.2 with
  | some r1, some r2 =>
    let dx : ℝ := (r2.labelPos.x : ℝ) - (r1.labelPos.x : ℝ)
    let dy : ℝ := (r2.labelPos.y : ℝ) - (r1.labelPos.y : ℝ)
    let dist := Real.sqrt (dx * dx + dy * dy)
    let minDist := (r1.width + r2.width) / 2
    if dist < minDist then
      let pushDist := (minDist - dist) / 2 + 20
      let c := if dist = 0 then (1 : ℝ) else dx / dist
      let s := if dist = 0 then (0 : ℝ) else dy / dist
      (rd.set ij.1
          { r1 with cx := r1.cx - pushDist * c, cy := r1.cy - pushDist * s }).set
        ij.2 { r2 with cx := r2.cx + pushDist * c, cy := r2.cy + pushDist * s }
    else rd
  | _, _ => rd

/-- The whole overlap-resolution double loop. -/
def resolveOverlaps (rd : List RoomDataR) : List RoomDataR :=
  (pairIdx rd.length).foldl resolveStep rd

/-- `generateSyntheticContours` with the scale factor `pixelsPerSqMeter`
already computed: split labelled from unlabelled rooms, run the
overlap-resolution pass on the labelled ones and round their geometry;
lay the unlabelled ones out in a horizontal flow starting at `x = 100`
with 50 px spacing, alternating vertical offsets, wrapping at
`imageWidth - 100`. -/
def genWithScale (pps : ℝ) (claudeRooms : List ParsedRoom)
    (imageWidth imageHeight : ℚ) : List SynthRoom :=
  let roomsWithLabels := claudeRooms.filter fun r => r.labelPosition.isSome
  let roomsWithoutLabels := claudeRooms.filter fun r => !r.labelPosition.isSome
  let roomData : List RoomDataR := roomsWithLabels.map fun room =>
    let lp := room.labelPosition.getD ⟨0, 0⟩
    ⟨room, (room.width : ℝ) * pps, (room.depth : ℝ) * pps, lp, (lp.x : ℝ), (lp.y : ℝ)⟩
  let resolved := resolveOverlaps roomData
  let withLabels : List SynthRoom := resolved.map fun rd =>
    ⟨rd.room.id, rd.room.name, rd.room.width, rd.room.depth, rd.room.labelPosition,
      ⟨jsRoundR (rd.cx - rd.width / 2), jsRoundR (rd.cy - rd.height / 2),
        jsRoundR rd.width, jsRoundR rd.height⟩,
      ⟨jsRoundR rd.cx, jsRoundR rd.cy⟩,
      jsRoundR (rd.width * rd.height)⟩
  let flow := (roomsWithoutLabels.enum.foldl
    (fun (st : ℝ × List SynthRoom) p =>
      let bw : ℝ := (p.2.width : ℝ) * pps
      let bh : ℝ := (p.2.depth : ℝ) * pps
      let vo : ℝ := if p.1 % 2 = 0 then -bh / 4 else bh / 4
      let y : ℝ := (imageHeight : ℝ) / 2 - bh / 2 + vo
      let sr : SynthRoom :=
        ⟨p.2.id, p.2.name, p.2.width, p.2.depth, p.2.labelPosition,
          ⟨jsRoundR st.1, jsRoundR y, jsRoundR bw, jsRoundR bh⟩,
          ⟨jsRoundR (st.1 + bw / 2), jsRoundR (y + bh / 2)⟩,
          jsRoundR (bw * bh)⟩
      let nx := st.1 + bw + 50
      (if nx > (imageWidth : ℝ) - 100 then 100 else nx, st.2 ++ [sr]))
    ((100 : ℝ), [])).2
  withLabels ++ flow

/-- `generateSyntheticContours(claudeRooms, imageWidth, imageHeight)`
(revision 2): the scale is
`√(targetPixelsPerRoom / avgRoomArea)` pixels per metre, where
`targetPixelsPerRoom = imageWidth·imageHeight / (4·n)` and
`avgRoomArea = Σ width·depth / n`. -/
def generateSyntheticContours (claudeRooms : List ParsedRoom)
    (imageWidth imageHeight : ℚ) : List SynthRoom :=
  let totalArea : ℚ := claudeRooms.foldl (fun s r => s + r.width * r.depth) 0
  let avgRoomArea : ℚ := totalArea / (claudeRooms.length : ℚ)
  let targetPixelsPerRoom : ℚ :=
    (imageWidth * imageHeight) / ((claudeRooms.length : ℚ) * 4)
  genWithScale (Real.sqrt ((targetPixelsPerRoom / avgRoomArea : ℚ) : ℝ))
    claudeRooms imageWidth imageHeight

end

/-- **C9**: for the spec's scenario-1 input — room A `4 × 3 m` and room B
`2 × 2 m`, both labelled at `(100, 100)` in a 1000 × 1000 image — the scale
is `√((1000·1000/(2·4)) / 8) = √15625 = 125 px/m`, so A is 500 px and B is
250 px wide; the overlap pass pushes each centroid `207.5 px` along the
`+x` axis (`atan2(0, 0) = 0`), giving rounded centroids `(-107, 100)` and
`(308, 100)`: the separation is `415 ≥ (500 + 250)/2 = 375`. -/
theorem C9_synthetic_separation :
    ∃ sA sB,
      generateSyntheticContours
          [⟨"a", "A", 4, 3, some ⟨100, 100⟩⟩, ⟨"b", "B", 2, 2, some ⟨100, 100⟩⟩]
          1000 1000
        = [sA, sB] ∧
      sA.centroid = ⟨-107, 100⟩ ∧ sB.centroid = ⟨308, 100⟩ ∧
      sA.bbox.width = 500 ∧ sB.bbox.width = 250 ∧
      ((sA.bbox.width + sB.bbox.width : ℤ) : ℝ) / 2
        ≤ Real.sqrt (((sA.centroid.x - sB.centroid.x : ℤ) : ℝ) ^ 2
            + ((sA.centroid.y - sB.centroid.y : ℤ) : ℝ) ^ 2) := by
  have hscale : generateSyntheticContours
      [⟨"a", "A", 4, 3, some ⟨100, 100⟩⟩, ⟨"b", "B", 2, 2, some ⟨100, 100⟩⟩]
      1000 1000
      = genWithScale 125
        [⟨"a", "A", 4, 3, some ⟨100, 100⟩⟩, ⟨"b", "B", 2, 2, some ⟨100, 100⟩⟩]
        1000 1000 := by
    unfold generateSyntheticContours
    norm_num [List.foldl_cons, List.foldl_nil]
    rw [show ((15625 : ℝ)) = 125 ^ 2 by norm_num,
      Real.sqrt_sq (by norm_num : (0:ℝ) ≤ 125)]
  have hmain : genWithScale 125
      [⟨"a", "A", 4, 3, some ⟨100, 100⟩⟩, ⟨"b", "B", 2, 2, some ⟨100, 100⟩⟩]
      1000 1000
      = [⟨"a", "A", 4, 3, some ⟨100, 100⟩, ⟨-357, -87, 500, 375⟩, ⟨-107, 100⟩, 187500⟩,
         ⟨"b", "B", 2, 2, some ⟨100, 100⟩, ⟨183, -25, 250, 250⟩, ⟨308, 100⟩, 62500⟩] := by
    have hpi : pairIdx 2 = [(0, 1)] := rfl
    unfold genWithScale resolveOverlaps
    norm_num [hpi, resolveStep, jsRoundR, List.filter, Real.sqrt_zero]
  refine ⟨_, _, hscale.trans hmain, rfl, rfl, rfl, rfl, ?_⟩
  have h415 : ((((-107 : ℤ)) - 308 : ℤ) : ℝ) ^ 2 + (((100 : ℤ) - 100 : ℤ) : ℝ) ^ 2
      = 415 ^ 2 := by norm_num
  rw [h415, Real.sqrt_sq (by norm_num : (0:ℝ) ≤ 415)]
  norm_num

/-- Concrete instantiation of `C6_label_containment`. -/
theorem C6_label_containment_witness :
    matchRoomsToContours [⟨"r", "Room", 3, 3, some ⟨50, 50⟩⟩]
        [⟨⟨0, 0, 100, 100⟩, ⟨50, 50⟩, 10000⟩, ⟨⟨300, 0, 50, 50⟩, ⟨325, 25⟩, 2500⟩]
      = [⟨"r", "Room", 3, 3, some ⟨50, 50⟩, ⟨0, 0, 100, 100⟩, ⟨50, 50⟩, 10000⟩] ∧
    matchRoomsToContours [⟨"r", "Room", 3, 3, some ⟨50, 50⟩⟩]
        [⟨⟨300, 0, 50, 50⟩, ⟨325, 25⟩, 2500⟩, ⟨⟨0, 0, 100, 100⟩, ⟨50, 50⟩, 10000⟩]
      = [⟨"r", "Room", 3, 3, some ⟨50, 50⟩, ⟨0, 0, 100, 100⟩, ⟨50, 50⟩, 10000⟩] :=
  C6_label_containment "r" "Room" 3 3 ⟨50, 50⟩
    ⟨⟨0, 0, 100, 100⟩, ⟨50, 50⟩, 10000⟩ ⟨⟨300, 0, 50, 50⟩, ⟨325, 25⟩, 2500⟩
    (by norm_num [strictlyInsideBox]) (by norm_num [isPointInBox])

end Floorplan
